import Mathlib

/-!
Verification development for the sheet-metal CAD / DXF engine of this
repository (`src/services/dxfService.ts`).

Modelling conventions (shallow embedding):
* JavaScript numbers are modelled as exact rationals (`ℚ`).  The code performs
  only ring operations, comparisons, `Math.floor` and fixed-point decimal
  formatting on them, so the rational idealization is faithful except for
  binary floating-point rounding, which the spec treats as exact millimetre
  arithmetic.
* A JavaScript number that may be `NaN` (result of `parseFloat`/`parseInt`
  on a malformed token) is modelled as `Option ℚ` / `Option ℤ`, with `none`
  playing the role of `NaN`; every comparison with `NaN` is false, and
  arithmetic propagates it.
* A possibly-`undefined` string (reading past the end of the line array)
  is modelled as `Option String`.
* The writer's internal `content: string[]` buffer is a `List String`;
  `toFixed(3)` is `fmt3` below (round half away from zero to three decimals,
  exactly the ECMAScript `toFixed` rule on the idealized value), and number
  `toString` is `qRepr`/`intRepr` (only its newline-freeness is ever
  observable in the properties below).
* `Math.atan2`/`Math.cos`/`Math.sin`/`Math.sqrt` in `addDimension` force a
  real-number (`ℝ`) model for that one routine; it is transcribed separately.
-/

/-! ## JavaScript numeric and string primitives -/

/-- A JavaScript number that may be `NaN`: `none` is `NaN`. -/
abbrev JNum := Option ℚ

/-- Addition with `NaN` propagation. -/
def jadd (a b : JNum) : JNum :=
  match a, b with
  | some x, some y => some (x + y)
  | _, _ => none

/-- Subtraction with `NaN` propagation. -/
def jsub (a b : JNum) : JNum :=
  match a, b with
  | some x, some y => some (x - y)
  | _, _ => none

/-- Multiplication with `NaN` propagation. -/
def jmul (a b : JNum) : JNum :=
  match a, b with
  | some x, some y => some (x * y)
  | _, _ => none

/-- Digit-run to natural number, most significant first (`foldl`). -/
def digitsToNat (ds : List Char) : ℕ :=
  ds.foldl (fun a c => 10 * a + (c.toNat - 48)) 0

/-- Decimal digits of a natural number, most significant first. -/
def natDigits (n : ℕ) : List Char :=
  if h : n < 10 then [Char.ofNat (48 + n)]
  else natDigits (n / 10) ++ [Char.ofNat (48 + n % 10)]
termination_by n
decreasing_by
  exact Nat.div_lt_self (by omega) (by omega)

/-- Decimal string of an integer (exactly what JS `Number.toString` prints
for an integer value). -/
def intRepr (n : ℤ) : String :=
  if n < 0 then String.mk ('-' :: natDigits (-n).toNat)
  else String.mk (natDigits n.toNat)

/-- Rendering of a rational used where the source calls `toString()` on a
number that is not further inspected by any verified property (text height
and rotation fields).  Only the absence of `'\n'` and of whitespace in the
output is ever used. -/
def qRepr (q : ℚ) : String :=
  if q.den = 1 then intRepr q.num
  else intRepr q.num ++ String.mk ('/' :: natDigits q.den)

/-- Optional leading sign of a numeric literal: whether it is negative, and
the characters after the sign. -/
def splitSign (cs : List Char) : Bool × List Char :=
  match cs with
  | [] => (false, [])
  | c :: r =>
    if c = '-' then (true, r)
    else if c = '+' then (false, r)
    else (false, c :: r)

/-- ECMAScript `parseInt` (radix 10): skip whitespace, optional sign, then a
maximal digit run; `NaN` (here `none`) when no digit is found.  (Our inputs
are already trimmed lines, so the whitespace skip is inert.) -/
def jsParseInt (s : String) : Option ℤ :=
  let p := splitSign (s.data.dropWhile Char.isWhitespace)
  let ds := p.2.takeWhile Char.isDigit
  if ds.isEmpty then none
  else some ((if p.1 then -1 else 1) * (digitsToNat ds : ℤ))

/-- ECMAScript `parseFloat` restricted to plain decimal notation (optional
sign, integer digits, optional fraction): the writer never emits exponent
notation in the rational idealization, and no verified property depends on
exponent parsing.  `none` is `NaN`. -/
def jsParseFloat (s : String) : JNum :=
  let p := splitSign (s.data.dropWhile Char.isWhitespace)
  let ds := p.2.takeWhile Char.isDigit
  let rest := p.2.dropWhile Char.isDigit
  match rest with
  | '.' :: r2 =>
    let fs := r2.takeWhile Char.isDigit
    if ds.isEmpty ∧ fs.isEmpty then none
    else some ((if p.1 then (-1 : ℚ) else 1) *
      ((digitsToNat ds : ℚ) + (digitsToNat fs : ℚ) / 10 ^ fs.length))
  | _ =>
    if ds.isEmpty then none
    else some ((if p.1 then (-1 : ℚ) else 1) * (digitsToNat ds : ℚ))

/-- `parseFloat` on a possibly-`undefined` value: `parseFloat(undefined)` is
`NaN`. -/
def jsParseFloatOpt (v : Option String) : JNum :=
  match v with
  | none => none
  | some s => jsParseFloat s

/-- `parseInt` on a possibly-`undefined` value. -/
def jsParseIntOpt (v : Option String) : Option ℤ :=
  match v with
  | none => none
  | some s => jsParseInt s

/-- The integer `n` with `n / 10^3` closest to `|q|` (ties upward): the
ECMAScript `toFixed(3)` mantissa of the absolute value. -/
def fix3 (q : ℚ) : ℤ := ⌊|q| * 1000 + 1 / 2⌋

/-- Exact value printed by `x.toFixed(3)`: round half away from zero to three
decimal places (the ECMAScript rule computes the mantissa on `|x|`, ties to
the larger, and prepends the sign). -/
def round3 (q : ℚ) : ℚ :=
  (if q < 0 then -1 else 1) * (fix3 q : ℚ) / 1000

/-- Zero-padded three-digit fraction block of `toFixed(3)`. -/
def pad3 (m : ℕ) : List Char :=
  List.replicate (3 - (natDigits m).length) '0' ++ natDigits m

/-- The exact string `x.toFixed(3)` produces (plain decimal: the inputs the
generator feeds it are far below the `1e21` exponent threshold, and in the
rational idealization no overflow exists). -/
def fmt3 (q : ℚ) : String :=
  String.mk ((if q < 0 then ['-'] else []) ++
    natDigits ((fix3 q).toNat / 1000) ++ '.' :: pad3 ((fix3 q).toNat % 1000))

/-- Split a character stream at `'\n'`, exactly like JS `split('\n')`:
always at least one (possibly empty) field. -/
def splitNl : List Char → List (List Char)
  | [] => [[]]
  | c :: r =>
    let rest := splitNl r
    if c = '\n' then [] :: rest
    else (c :: rest.headI) :: rest.tail

/-- Join with `'\n'`, exactly like JS `join('\n')`. -/
def joinNl : List (List Char) → List Char
  | [] => []
  | [l] => l
  | l :: r => l ++ '\n' :: joinNl r

/-- Strip leading and trailing whitespace (JS `String.prototype.trim`). -/
def trimChars (cs : List Char) : List Char :=
  ((cs.dropWhile Char.isWhitespace).reverse.dropWhile Char.isWhitespace).reverse

/-- Trim of a string, on the character-list model. -/
def trimStr (s : String) : String := String.mk (trimChars s.data)

/-! ## Flat-pattern geometry engine: `calculateFlatPattern`
(`src/services/dxfService.ts` lines 348-365).

The spec calls this routine `flattenSegments`.  Transcription: the bend
deduction is `2 * thickness`, the flat length is the segment sum minus one
deduction per internal bend, and bend `i` (0-based) sits at the cumulative
outer length of segments `0..i` minus `i * D + D / 2`.  `segments.length - 1`
is computed in `ℤ` for the flat length (JS subtraction) and as a truncated
`ℕ` subtraction for the loop bound `i < segments.length - 1`, which agrees
with the JS loop for every length. -/

def calculateFlatPattern (segments : List ℚ) (thickness : ℚ) : ℚ × List ℚ :=
  let D := 2 * thickness
  let totalOuter := segments.foldl (· + ·) 0
  let totalDeductions := ((segments.length : ℚ) - 1) * D
  let finalFlatLength := totalOuter - totalDeductions
  let bendPositions := (List.range (segments.length - 1)).map
    (fun i => (segments.take (i + 1)).foldl (· + ·) 0 - ((i : ℚ) * D + D / 2))
  (finalFlatLength, bendPositions)

/-! ## Tray panel layout
(`src/services/dxfService.ts` lines 389-495, the `isTray` branch of
`generateFabricationFiles`).

`FLANGE = 35.0` and `BEND_DEDUCTION = 1.5` are the constants of the panel
branch.  The X and Y rivet-hole loops of the source are the same computation
applied to `flatW` and `flatH`; they are transcribed once as `holePositions`
over the flat dimension and instantiated twice, exactly as the two loops
instantiate the shared formula. -/

/-- Standard AHU flange width (source line 396). -/
def FLANGE : ℚ := 35

/-- Bend deduction for the assumed 0.8 mm gauge (source line 397). -/
def BEND_DEDUCTION : ℚ := 3 / 2

/-- Corner notch size `FLANGE - BEND_DEDUCTION / 2` (source line 412). -/
def notchSize : ℚ := FLANGE - BEND_DEDUCTION / 2

/-- Flat-pattern width `W + 2*FLANGE - 2*BEND_DEDUCTION` (source line 409). -/
def flatW (W : ℚ) : ℚ := W + 2 * FLANGE - 2 * BEND_DEDUCTION

/-- Flat-pattern height (source line 410). -/
def flatH (H : ℚ) : ℚ := H + 2 * FLANGE - 2 * BEND_DEDUCTION

/-- The twelve-point outer cut polygon with the four corner notches
(source lines 416-423). -/
def trayOuterPts (W H : ℚ) : List (ℚ × ℚ) :=
  [(notchSize, 0), (flatW W - notchSize, 0),
   (flatW W - notchSize, notchSize), (flatW W, notchSize),
   (flatW W, flatH H - notchSize), (flatW W - notchSize, flatH H - notchSize),
   (flatW W - notchSize, flatH H), (notchSize, flatH H),
   (notchSize, flatH H - notchSize), (0, flatH H - notchSize),
   (0, notchSize), (notchSize, notchSize)]

/-- Rivet-hole target spacing (source line 446: every 150 mm). -/
def holeSpacing : ℚ := 150

/-- Centerline of a flange strip, `notchSize / 2` (source line 448). -/
def flangeMid : ℚ := notchSize / 2

/-- Number-of-holes computation `Math.floor((flat - 2*notch) / 150)` for one
flat dimension (source lines 451 and 463). -/
def numHoles (flat : ℚ) : ℤ := ⌊(flat - 2 * notchSize) / holeSpacing⌋

/-- Actual spacing `(flat - 2*notch) / (numHoles + 1)` (source lines 452
and 464). -/
def actualSpacing (flat : ℚ) : ℚ :=
  (flat - 2 * notchSize) / ((numHoles flat : ℚ) + 1)

/-- The positions `notch + i * spacing` for `i = 1 .. numHoles` along one
flat dimension (the loop bodies at source lines 454-460 and 466-472). -/
def holePositions (flat : ℚ) : List ℚ :=
  (List.range (numHoles flat).toNat).map
    (fun (i : ℕ) => notchSize + ((i : ℚ) + 1) * actualSpacing flat)

/-- Bottom-flange rivet circle centers (source line 457). -/
def bottomHoleCenters (W : ℚ) : List (ℚ × ℚ) :=
  (holePositions (flatW W)).map (fun x => (x, flangeMid))

/-- Top-flange rivet circle centers (source line 459). -/
def topHoleCenters (W H : ℚ) : List (ℚ × ℚ) :=
  (holePositions (flatW W)).map (fun x => (x, flatH H - flangeMid))

/-- Left-flange rivet circle centers (source line 469). -/
def leftHoleCenters (H : ℚ) : List (ℚ × ℚ) :=
  (holePositions (flatH H)).map (fun y => (flangeMid, y))

/-- Right-flange rivet circle centers (source line 471). -/
def rightHoleCenters (W H : ℚ) : List (ℚ × ℚ) :=
  (holePositions (flatH H)).map (fun y => (flatW W - flangeMid, y))

/-- Whether a character list contains another as a contiguous run
(JS `String.prototype.includes`). -/
def listStartsWith : List Char → List Char → Bool
  | [], _ => true
  | _ :: _, [] => false
  | p :: ps, c :: cs => p = c && listStartsWith ps cs

/-- Contiguous containment of `pat` in a character list. -/
def containsList (pat : List Char) : List Char → Bool
  | [] => pat.isEmpty
  | l@(_ :: r) => listStartsWith pat l || containsList pat r

/-- The tray heuristic `!panel.Notes?.toLowerCase().includes('flat')`
(source line 395): absent notes make a tray; notes containing "flat"
(case-insensitively) make a flat plate. -/
def isTray (notes : Option String) : Bool :=
  match notes with
  | none => true
  | some s => !(containsList "flat".data (s.toLower.data))

/-! ## Part-list data model and the hole-remapping side effect
(`src/unnamed/part_000` and source lines 485-492).

`generateFabricationFiles` mutates its input part list in exactly one place:
for each tray panel it adds `notchSize` to both coordinates of every
supplied hole.  `partsAfterGenerate` is the value of `data.Parts_List`
after the call, under the data-model ownership rule (§3 of the spec) that
no hole record is shared between parts. -/

inductive HoleShape
  | Circle
  | Rect
deriving DecidableEq, Inhabited

structure Hole where
  Shape : HoleShape
  X : ℚ
  Y : ℚ
  W_or_Dia : ℚ
  H : Option ℚ
deriving DecidableEq, Inhabited

inductive PartType
  | Panel
  | Profile
deriving DecidableEq, Inhabited

structure PartGeometry where
  Part_Name : String
  Type' : PartType
  Material : String
  Qty : ℚ
  Width_mm : ℚ
  Height_mm : ℚ
  Notes : Option String
  Holes : Option (List Hole)
deriving DecidableEq, Inhabited

/-- The in-place remap of one hole (source lines 489-490). -/
def remapHole (h : Hole) : Hole :=
  { h with X := h.X + notchSize, Y := h.Y + notchSize }

/-- The net effect of `generateFabricationFiles` on one part of the input
list: tray panels get their holes remapped, everything else is untouched
(the function reads but never writes any other field). -/
def processPart (p : PartGeometry) : PartGeometry :=
  if p.Type' = PartType.Panel ∧ isTray p.Notes then
    { p with Holes := p.Holes.map (fun hs => hs.map remapHole) }
  else p

/-- The value of the input part list after `generateFabricationFiles`. -/
def partsAfterGenerate (parts : List PartGeometry) : List PartGeometry :=
  parts.map processPart

/-! ## The DXF writer
(`src/services/dxfService.ts` lines 5-178, `SimpleDxfWriter`).

The mutable `content: string[]` buffer is the `content` field; every
operation appends the exact strings the source pushes, with numbers
serialized by `fmt3` (`toFixed(3)`), `intRepr` (integer `toString`) and
`qRepr` (number `toString`).  `toString` pushes the ENDSEC/EOF footer into
the buffer and joins with newlines; it is modelled as returning the mutated
writer together with the output. -/

/-- The fixed header/table block pushed by the constructor
(source lines 12-33). -/
def dxfHeader : List String :=
  ["0", "SECTION", "2", "HEADER", "9", "$ACADVER", "1", "AC1009", "0", "ENDSEC",
   "0", "SECTION", "2", "TABLES",
   "0", "TABLE", "2", "LAYER", "70", "6",
   "0", "LAYER", "2", "0", "70", "0", "62", "7", "6", "CONTINUOUS",
   "0", "LAYER", "2", "CUT_OUTER", "70", "0", "62", "7", "6", "CONTINUOUS",
   "0", "LAYER", "2", "CUT_INNER", "70", "0", "62", "1", "6", "CONTINUOUS",
   "0", "LAYER", "2", "BEND", "70", "0", "62", "2", "6", "DASHED",
   "0", "LAYER", "2", "DIMENSIONS", "70", "0", "62", "3", "6", "CONTINUOUS",
   "0", "LAYER", "2", "TEXT", "70", "0", "62", "4", "6", "CONTINUOUS",
   "0", "ENDTAB",
   "0", "ENDSEC",
   "0", "SECTION", "2", "ENTITIES"]

/-- The footer pushed by `toString` (source line 175). -/
def dxfFooter : List String := ["0", "ENDSEC", "0", "EOF"]

structure SimpleDxfWriter where
  content : List String
deriving DecidableEq

/-- A fresh writer (constructor calls `header()`). -/
def SimpleDxfWriter.new : SimpleDxfWriter := ⟨dxfHeader⟩

/-- The lines pushed by `addLine` (source lines 35-43). -/
def lineLines (x1 y1 x2 y2 : ℚ) (layer : String) (color : ℤ) : List String :=
  ["0", "LINE", "8", layer, "62", intRepr color,
   "10", fmt3 x1, "20", fmt3 y1, "30", "0.0",
   "11", fmt3 x2, "21", fmt3 y2, "31", "0.0"]

def SimpleDxfWriter.addLine (w : SimpleDxfWriter) (x1 y1 x2 y2 : ℚ)
    (layer : String) (color : ℤ) : SimpleDxfWriter :=
  ⟨w.content ++ lineLines x1 y1 x2 y2 layer color⟩

/-- The lines pushed for one polyline vertex (source line 50). -/
def vertexLines (p : ℚ × ℚ) (layer : String) : List String :=
  ["0", "VERTEX", "8", layer, "10", fmt3 p.1, "20", fmt3 p.2, "30", "0.0"]

/-- The lines pushed by `addPolyline` (source lines 45-53). -/
def polylineLines (points : List (ℚ × ℚ)) (layer : String) (color : ℤ)
    (closed : Bool) : List String :=
  ["0", "POLYLINE", "8", layer, "62", intRepr color, "66", "1",
   "10", "0.0", "20", "0.0", "30", "0.0", "70", if closed then "1" else "0"] ++
  points.flatMap (fun p => vertexLines p layer) ++ ["0", "SEQEND"]

def SimpleDxfWriter.addPolyline (w : SimpleDxfWriter) (points : List (ℚ × ℚ))
    (layer : String) (color : ℤ) (closed : Bool) : SimpleDxfWriter :=
  ⟨w.content ++ polylineLines points layer color closed⟩

/-- The lines pushed by `addCircle` (source lines 55-63). -/
def circleLines (cx cy radius : ℚ) (layer : String) (color : ℤ) : List String :=
  ["0", "CIRCLE", "8", layer, "62", intRepr color,
   "10", fmt3 cx, "20", fmt3 cy, "30", "0.0", "40", fmt3 radius]

def SimpleDxfWriter.addCircle (w : SimpleDxfWriter) (cx cy radius : ℚ)
    (layer : String) (color : ℤ) : SimpleDxfWriter :=
  ⟨w.content ++ circleLines cx cy radius layer color⟩

/-- The lines pushed by `addText` (source lines 65-74); height and rotation
are serialized with plain number `toString`. -/
def textLines (text : String) (x y height : ℚ) (layer : String)
    (rotation : ℚ) : List String :=
  ["0", "TEXT", "8", layer, "10", fmt3 x, "20", fmt3 y, "30", "0.0",
   "40", qRepr height, "50", qRepr rotation, "1", text]

def SimpleDxfWriter.addText (w : SimpleDxfWriter) (text : String) (x y height : ℚ)
    (layer : String) (rotation : ℚ) : SimpleDxfWriter :=
  ⟨w.content ++ textLines text x y height layer rotation⟩

/-- `toString` (source lines 174-177): pushes the footer into the buffer and
joins with `'\n'`.  The returned pair is (writer after the call, output). -/
def SimpleDxfWriter.toString (w : SimpleDxfWriter) : SimpleDxfWriter × String :=
  (⟨w.content ++ dxfFooter⟩,
    String.mk (joinNl ((w.content ++ dxfFooter).map String.data)))

/-! ## The dimension annotation routine `addDimension`
(`src/services/dxfService.ts` lines 77-149).

This is the one routine whose arithmetic is genuinely transcendental
(`Math.sqrt`, `Math.atan2`, `Math.cos`, `Math.sin`), so it is modelled over
`ℝ`, at the level of the entities it appends (each `addLine`/`addText` call
becomes one `DimEnt`); serialization of these entities is the writer's
concern and not part of the claims about this routine.  The text label
string `val.toFixed(1)` enters the geometry only through its character
count, transcribed as `fix1Len`. -/

/-- ECMAScript `Math.atan2` (result in `(-pi, pi]`, signed zeros ignored). -/
noncomputable def jsAtan2 (y x : ℝ) : ℝ :=
  if 0 < x then Real.arctan (y / x)
  else if x < 0 then
    (if 0 ≤ y then Real.arctan (y / x) + Real.pi
     else Real.arctan (y / x) - Real.pi)
  else
    (if 0 < y then Real.pi / 2 else if y < 0 then -(Real.pi / 2) else 0)

/-- One entity appended by `addDimension`: a line on a layer with a color,
or the measurement text (its label value, anchor, height and rotation). -/
inductive DimEnt
  | line (x1 y1 x2 y2 : ℝ) (layer : String) (color : ℤ)
  | text (value : ℝ) (x y height rot : ℝ)

/-- Character count of `v.toFixed(1)`: sign, integer digits, dot, one
fraction digit. -/
noncomputable def fix1Len (v : ℝ) : ℕ :=
  (natDigits ((⌊|v| * 10 + 1 / 2⌋).toNat / 10)).length + 2 +
    (if v < 0 then 1 else 0)

/-- The text rotation written by `addDimension` (source lines 142-146): the
dimension line's angle in degrees, shifted by `+180` when outside
`[-90, 90]`. -/
noncomputable def dimTextRot (x1 y1 x2 y2 : ℝ) : ℝ :=
  let angle := jsAtan2 (y2 - y1) (x2 - x1)
  let deg := angle * 180 / Real.pi
  if deg > 90 ∨ deg < -90 then deg + 180 else deg

/-- Full transcription of `addDimension`: returns the list of entities the
call appends (empty when the endpoints are closer than `0.1`). -/
noncomputable def addDimensionEntities (x1 y1 x2 y2 : ℝ) (value : Option ℝ)
    (offset : ℝ) : List DimEnt :=
  let dist := Real.sqrt ((x2 - x1) ^ 2 + (y2 - y1) ^ 2)
  if dist < 0.1 then [] else
  let val := value.getD dist
  let angle := jsAtan2 (y2 - y1) (x2 - x1)
  let perpAngle := angle + Real.pi / 2
  let gap : ℝ := 2
  let overshoot : ℝ := 2
  let extStartX1 := x1 + Real.cos perpAngle * (Real.sign offset * gap)
  let extStartY1 := y1 + Real.sin perpAngle * (Real.sign offset * gap)
  let extStartX2 := x2 + Real.cos perpAngle * (Real.sign offset * gap)
  let extStartY2 := y2 + Real.sin perpAngle * (Real.sign offset * gap)
  let offX := Real.cos perpAngle * offset
  let offY := Real.sin perpAngle * offset
  let dimX1 := x1 + offX
  let dimY1 := y1 + offY
  let dimX2 := x2 + offX
  let dimY2 := y2 + offY
  let extEndX1 := dimX1 + Real.cos perpAngle * (Real.sign offset * overshoot)
  let extEndY1 := dimY1 + Real.sin perpAngle * (Real.sign offset * overshoot)
  let extEndX2 := dimX2 + Real.cos perpAngle * (Real.sign offset * overshoot)
  let extEndY2 := dimY2 + Real.sin perpAngle * (Real.sign offset * overshoot)
  let tickSize : ℝ := 2
  let tickAngle := angle + Real.pi / 4
  let tick1X := Real.cos tickAngle * tickSize
  let tick1Y := Real.sin tickAngle * tickSize
  let midX := (dimX1 + dimX2) / 2
  let midY := (dimY1 + dimY2) / 2
  let textGap : ℝ := 2
  let textX := midX + Real.cos perpAngle * textGap
  let textY := midY + Real.sin perpAngle * textGap
  let textHeight : ℝ := 3.5
  let textWidthEstimate := (fix1Len val : ℝ) * (textHeight * 0.6)
  [DimEnt.line extStartX1 extStartY1 extEndX1 extEndY1 "DIMENSIONS" 3,
   DimEnt.line extStartX2 extStartY2 extEndX2 extEndY2 "DIMENSIONS" 3,
   DimEnt.line dimX1 dimY1 dimX2 dimY2 "DIMENSIONS" 3,
   DimEnt.line (dimX1 - tick1X) (dimY1 - tick1Y) (dimX1 + tick1X)
     (dimY1 + tick1Y) "DIMENSIONS" 3,
   DimEnt.line (dimX2 - tick1X) (dimY2 - tick1Y) (dimX2 + tick1X)
     (dimY2 + tick1Y) "DIMENSIONS" 3,
   DimEnt.text val (textX - textWidthEstimate / 2) (textY - textHeight / 2)
     textHeight (dimTextRot x1 y1 x2 y2)]

/-- The rotations of the text entities in an entity list. -/
def dimTextRots (es : List DimEnt) : List ℝ :=
  es.filterMap (fun e =>
    match e with
    | DimEnt.text _ _ _ _ r => some r
    | _ => none)

/-! ## The DXF parser `parseDxf`
(`src/services/dxfService.ts` lines 199-329).

The source walks an index `i` over the trimmed line array, reading
(`parseInt` code, value) pairs with `next()`/`peek()`.  Here the remaining
suffix of the line list plays the role of the index:

* one main-loop iteration is `scanStep` (consumes the pair and, for entity
  records, the whole record via the field/vertex loops);
* `scanMain` iterates `scanStep` with explicit fuel, one unit per main-loop
  iteration; `none` means the fuel ran out.  `parseDxf` runs with fuel
  `lines.length + 1`, and the totality theorem for claim C10 proves that is
  always enough, i.e. every loop strictly advances the index;
* `Except.error ()` models the one JavaScript exception the function can
  raise: `text.text!.length` when a TEXT record's code-1 pair sits at the
  end of the input with no value line (`text.text` becomes `undefined`);
* the bounds accumulator starts at `minX = Infinity` etc.; `none` in
  `BState.minX`/`minY` is `+Infinity`, in `maxX`/`maxY` it is `-Infinity`,
  and a comparison against `NaN` is false, exactly as in JS.  `contribs` is
  a ghost log of the `updateBounds` calls, used only to state claim C7;
  no computation reads it. -/

inductive EType
  | LINE
  | CIRCLE
  | POLYLINE
  | TEXT
deriving DecidableEq, Inhabited

/-- Parsed entity, mirroring the TS `DxfEntity` interface: optional fields
are `Option`/`none` when the source leaves them `undefined`. -/
structure DxfEntity where
  type : EType
  layer : Option String
  color : Option ℤ
  points : Option (List (JNum × JNum))
  center : Option (JNum × JNum)
  radius : JNum
  text : Option String
  height : JNum
  x : JNum
  y : JNum
  closed : Option Bool
deriving DecidableEq, Inhabited

/-- Bounds accumulator (plus the ghost contribution log). -/
structure BState where
  minX : Option ℚ
  minY : Option ℚ
  maxX : Option ℚ
  maxY : Option ℚ
  contribs : List (JNum × JNum)
deriving DecidableEq

def initB : BState := ⟨none, none, none, none, []⟩

/-- `x < min` with `NaN` (left `none`) false and `+Infinity` (right `none`)
absorbing. -/
def jltMin (x : JNum) (m : Option ℚ) : Bool :=
  match x, m with
  | none, _ => false
  | some _, none => true
  | some a, some b => a < b

/-- `x > max` with `NaN` false and `-Infinity` absorbing. -/
def jgtMax (x : JNum) (m : Option ℚ) : Bool :=
  match x, m with
  | none, _ => false
  | some _, none => true
  | some a, some b => b < a

/-- `updateBounds` (source lines 204-209), plus the ghost log entry. -/
def updB (b : BState) (x y : JNum) : BState :=
  { minX := if jltMin x b.minX then x else b.minX,
    maxX := if jgtMax x b.maxX then x else b.maxX,
    minY := if jltMin y b.minY then y else b.minY,
    maxY := if jgtMax y b.maxY then y else b.maxY,
    contribs := b.contribs ++ [(x, y)] }

/-- Parser state: the `inEntities` flag, the entity list, the bounds. -/
structure PState where
  inEntities : Bool
  entities : List DxfEntity
  b : BState
deriving DecidableEq

def initP : PState := ⟨false, [], initB⟩

/-- Generic per-entity field loop
`while (p && p.code !== 0) { next(); ...; p = peek(); }`: consumes pairs
until the next code-0 pair (left unconsumed) or the end of input, applying
the entity's field-assignment function to each. -/
def parseFields {E : Type} (upd : Option ℤ → Option String → E → E) :
    E → List String → E × List String
  | e, [] => (e, [])
  | e, [a] =>
    if jsParseInt a = some 0 then (e, [a])
    else (upd (jsParseInt a) none e, [])
  | e, a :: v :: r =>
    if jsParseInt a = some 0 then (e, a :: v :: r)
    else parseFields upd (upd (jsParseInt a) (some v) e) r

/-- LINE field slots (source line 244 initializer). -/
structure LineF where
  layer : Option String
  color : Option ℤ
  x1 : JNum
  y1 : JNum
  x2 : JNum
  y2 : JNum
deriving DecidableEq

def lineInit : LineF := ⟨some "0", some 7, some 0, some 0, some 0, some 0⟩

/-- LINE field assignments (source lines 248-253). -/
def updLineF (c : Option ℤ) (v : Option String) (e : LineF) : LineF :=
  { layer := if c = some 8 then v else e.layer,
    color := if c = some 62 then jsParseIntOpt v else e.color,
    x1 := if c = some 10 then jsParseFloatOpt v else e.x1,
    y1 := if c = some 20 then jsParseFloatOpt v else e.y1,
    x2 := if c = some 11 then jsParseFloatOpt v else e.x2,
    y2 := if c = some 21 then jsParseFloatOpt v else e.y2 }

def mkLine (f : LineF) : DxfEntity :=
  { type := EType.LINE, layer := f.layer, color := f.color,
    points := some [(f.x1, f.y1), (f.x2, f.y2)],
    center := none, radius := none, text := none, height := none,
    x := none, y := none, closed := none }

/-- LINE record completion (source lines 256-258): two bounds updates, then
the push. -/
def pushLine (s : PState) (f : LineF) : PState :=
  { s with
    entities := s.entities ++ [mkLine f],
    b := updB (updB s.b f.x1 f.y1) f.x2 f.y2 }

/-- CIRCLE field slots (source line 261 initializer). -/
structure CircleF where
  layer : Option String
  color : Option ℤ
  cx : JNum
  cy : JNum
  radius : JNum
deriving DecidableEq

def circleInit : CircleF := ⟨some "0", some 7, some 0, some 0, some 0⟩

/-- CIRCLE field assignments (source lines 265-269). -/
def updCircleF (c : Option ℤ) (v : Option String) (e : CircleF) : CircleF :=
  { layer := if c = some 8 then v else e.layer,
    color := if c = some 62 then jsParseIntOpt v else e.color,
    cx := if c = some 10 then jsParseFloatOpt v else e.cx,
    cy := if c = some 20 then jsParseFloatOpt v else e.cy,
    radius := if c = some 40 then jsParseFloatOpt v else e.radius }

def mkCircle (f : CircleF) : DxfEntity :=
  { type := EType.CIRCLE, layer := f.layer, color := f.color,
    points := none, center := some (f.cx, f.cy), radius := f.radius,
    text := none, height := none, x := none, y := none, closed := none }

/-- CIRCLE record completion (source lines 272-274): bounds extended by
`center +- radius`, then the push. -/
def pushCircle (s : PState) (f : CircleF) : PState :=
  { s with
    entities := s.entities ++ [mkCircle f],
    b := updB (updB s.b (jsub f.cx f.radius) (jsub f.cy f.radius))
      (jadd f.cx f.radius) (jadd f.cy f.radius) }

/-- TEXT field slots (source line 277 initializer; `text` starts `''` and
becomes `undefined` when a code-1 pair has no value line). -/
structure TextF where
  layer : Option String
  color : Option ℤ
  x : JNum
  y : JNum
  height : JNum
  text : Option String
deriving DecidableEq

def textInit : TextF := ⟨some "0", some 7, some 0, some 0, some 10, some ""⟩

/-- TEXT field assignments (source lines 281-286). -/
def updTextF (c : Option ℤ) (v : Option String) (e : TextF) : TextF :=
  { layer := if c = some 8 then v else e.layer,
    color := if c = some 62 then jsParseIntOpt v else e.color,
    x := if c = some 10 then jsParseFloatOpt v else e.x,
    y := if c = some 20 then jsParseFloatOpt v else e.y,
    height := if c = some 40 then jsParseFloatOpt v else e.height,
    text := if c = some 1 then v else e.text }

def mkText (f : TextF) (t : String) : DxfEntity :=
  { type := EType.TEXT, layer := f.layer, color := f.color,
    points := none, center := none, radius := none,
    text := some t, height := f.height, x := f.x, y := f.y, closed := none }

/-- TEXT record completion (source lines 289-291): anchor bounds, then the
glyph-width-heuristic bounds `(x + len * height * 0.6, y + height)`, then
the push.  The caller has already ruled `text = undefined` out. -/
def pushTextE (s : PState) (f : TextF) (t : String) : PState :=
  { s with
    entities := s.entities ++ [mkText f t],
    b := updB (updB s.b f.x f.y)
      (jadd f.x (jmul (jmul (some (t.length : ℚ)) f.height) (some (3 / 5))))
      (jadd f.y f.height) }

/-- POLYLINE header field slots (source line 294 initializer). -/
structure PolyF where
  layer : Option String
  color : Option ℤ
  closed : Bool
deriving DecidableEq

def polyInit : PolyF := ⟨some "0", some 7, false⟩

/-- Truthiness of `parseInt(v) & 1` (`NaN & 1` is `0` in JS). -/
def oddParse (v : Option String) : Bool :=
  match jsParseIntOpt v with
  | none => false
  | some n => n % 2 ≠ 0

/-- POLYLINE header field assignments (source lines 298-300). -/
def updPolyF (c : Option ℤ) (v : Option String) (e : PolyF) : PolyF :=
  { layer := if c = some 8 then v else e.layer,
    color := if c = some 62 then jsParseIntOpt v else e.color,
    closed := if c = some 70 ∧ oddParse v then true else e.closed }

def mkPoly (f : PolyF) (pts : List (JNum × JNum)) : DxfEntity :=
  { type := EType.POLYLINE, layer := f.layer, color := f.color,
    points := some pts, center := none, radius := none, text := none,
    height := none, x := none, y := none, closed := some f.closed }

/-- State of the vertex loop (source lines 304-321): between records, or
inside a VERTEX record with the two coordinate slots. -/
inductive VMode
  | seek
  | inV (vx vy : JNum)
deriving DecidableEq

/-- End-of-input behaviour of the vertex loop: a pending vertex is still
pushed (the inner field loop exits on `peek() = null`, the vertex is pushed,
then `next() = null` breaks). -/
def vFinish (m : VMode) (pts : List (JNum × JNum)) (b : BState) :
    List (JNum × JNum) × BState × List String :=
  match m with
  | VMode.seek => (pts, b, [])
  | VMode.inV vx vy => (pts ++ [(vx, vy)], updB b vx vy, [])

/-- One consumed pair of the vertex loop.  `Sum.inr` is the SEQEND return;
in `inV` mode a code-0 pair first pushes the pending vertex (with its
bounds update) and is then dispatched as the next `vHeader`. -/
def vStep (c : Option ℤ) (v : Option String) (m : VMode)
    (pts : List (JNum × JNum)) (b : BState) :
    (VMode × List (JNum × JNum) × BState) ⊕ (List (JNum × JNum) × BState) :=
  match m with
  | VMode.seek =>
    if v = some "SEQEND" then Sum.inr (pts, b)
    else if v = some "VERTEX" then Sum.inl (VMode.inV (some 0) (some 0), pts, b)
    else Sum.inl (VMode.seek, pts, b)
  | VMode.inV vx vy =>
    if c = some 0 then
      let pts2 := pts ++ [(vx, vy)]
      let b2 := updB b vx vy
      if v = some "SEQEND" then Sum.inr (pts2, b2)
      else if v = some "VERTEX" then Sum.inl (VMode.inV (some 0) (some 0), pts2, b2)
      else Sum.inl (VMode.seek, pts2, b2)
    else
      let vx2 := if c = some 10 then jsParseFloatOpt v else vx
      let vy2 := if c = some 20 then jsParseFloatOpt v else vy
      Sum.inl (VMode.inV vx2 vy2, pts, b)

/-- The vertex loop over the remaining lines. -/
def parseVLoop : List String → VMode → List (JNum × JNum) → BState →
    List (JNum × JNum) × BState × List String
  | [], m, pts, b => vFinish m pts b
  | [a], m, pts, b =>
    match vStep (jsParseInt a) none m pts b with
    | Sum.inl (m2, pts2, b2) => vFinish m2 pts2 b2
    | Sum.inr (pts2, b2) => (pts2, b2, [])
  | a :: v :: r, m, pts, b =>
    match vStep (jsParseInt a) (some v) m pts b with
    | Sum.inl (m2, pts2, b2) => parseVLoop r m2 pts2 b2
    | Sum.inr (pts2, b2) => (pts2, b2, r)

/-- POLYLINE record completion (source line 322). -/
def pushPoly (s : PState) (f : PolyF) (pts : List (JNum × JNum))
    (b2 : BState) : PState :=
  { s with entities := s.entities ++ [mkPoly f pts], b := b2 }

/-- The ENDSEC flag reset (source lines 236-238). -/
def stepState (s : PState) (c : Option ℤ) (v : Option String) : PState :=
  if c = some 0 ∧ v = some "ENDSEC" then { s with inEntities := false } else s

/-- The entity dispatch (source lines 240-324) on the already-flag-updated
state. -/
def scanDispatch (s1 : PState) (c : Option ℤ) (v : Option String)
    (r : List String) : Except Unit (PState × List String) :=
  if s1.inEntities = true ∧ c = some 0 then
    if v = some "LINE" then
      Except.ok (pushLine s1 (parseFields updLineF lineInit r).1,
        (parseFields updLineF lineInit r).2)
    else if v = some "CIRCLE" then
      Except.ok (pushCircle s1 (parseFields updCircleF circleInit r).1,
        (parseFields updCircleF circleInit r).2)
    else if v = some "TEXT" then
      match (parseFields updTextF textInit r).1.text with
      | none => Except.error ()
      | some t => Except.ok (pushTextE s1 (parseFields updTextF textInit r).1 t,
          (parseFields updTextF textInit r).2)
    else if v = some "POLYLINE" then
      Except.ok
        (pushPoly s1 (parseFields updPolyF polyInit r).1
          (parseVLoop (parseFields updPolyF polyInit r).2 VMode.seek [] s1.b).1
          (parseVLoop (parseFields updPolyF polyInit r).2 VMode.seek [] s1.b).2.1,
         (parseVLoop (parseFields updPolyF polyInit r).2 VMode.seek [] s1.b).2.2)
    else Except.ok (s1, r)
  else Except.ok (s1, r)

/-- One main-loop iteration on the consumed pair `(c, v)` with remaining
lines `r`: the SECTION look-ahead (source lines 228-234), the ENDSEC flag
reset, and the entity dispatch.  Returns the new state and remaining lines,
or the TEXT `undefined` exception. -/
def scanStep (s : PState) (c : Option ℤ) (v : Option String)
    (r : List String) : Except Unit (PState × List String) :=
  if c = some 0 ∧ v = some "SECTION" then
    match r with
    | [] => Except.ok (s, [])
    | [_] => Except.ok (s, [])
    | a2 :: v2 :: r2 =>
      if jsParseInt a2 = some 2 ∧ v2 = "ENTITIES" then
        Except.ok ({ s with inEntities := true }, r2)
      else Except.ok (s, r2)
  else scanDispatch (stepState s c v) c v r

/-- The main loop, with one unit of fuel per iteration; `none` means the
fuel ran out (proved impossible for fuel `> lines.length`). -/
def scanMain : ℕ → PState → List String → Option (Except Unit PState)
  | 0, _, _ => none
  | _ + 1, s, [] => some (Except.ok s)
  | f + 1, s, [a] =>
    match scanStep s (jsParseInt a) none [] with
    | Except.error e => some (Except.error e)
    | Except.ok p => scanMain f p.1 p.2
  | f + 1, s, a :: v :: r =>
    match scanStep s (jsParseInt a) (some v) r with
    | Except.error e => some (Except.error e)
    | Except.ok p => scanMain f p.1 p.2

/-- The returned bounds record; residual infinities stay `none`. -/
structure DxfBounds where
  minX : Option ℚ
  minY : Option ℚ
  maxX : Option ℚ
  maxY : Option ℚ
deriving DecidableEq

/-- The final fallback (source line 327): when `minX` is still `Infinity`
all four bounds are replaced by the `(0,0)-(100,100)` square. -/
def finalizeBounds (b : BState) : DxfBounds :=
  match b.minX with
  | none => ⟨some 0, some 0, some 100, some 100⟩
  | some mx => ⟨some mx, b.minY, b.maxX, b.maxY⟩

structure ParseResult where
  entities : List DxfEntity
  bounds : DxfBounds
deriving DecidableEq

/-- `content.split('\n').map(l => l.trim())` (source line 200). -/
def contentLines (content : String) : List String :=
  (splitNl content.data).map (fun cs => String.mk (trimChars cs))

/-- The full parser on the trimmed line list. -/
def parseLines (lines : List String) : Option (Except Unit ParseResult) :=
  (scanMain (lines.length + 1) initP lines).map
    (Except.map (fun s => ParseResult.mk s.entities (finalizeBounds s.b)))

/-- `parseDxf`: `some (.ok r)` is a normal return, `some (.error ())` the
TEXT-`undefined` TypeError, `none` fuel exhaustion (never happens). -/
def parseDxf (content : String) : Option (Except Unit ParseResult) :=
  parseLines (contentLines content)

/-- The parser run exposing the raw final state (for the bounds-fallback
claim, which constrains the ghost contribution log). -/
def parseDxfFull (content : String) : Option (Except Unit PState) :=
  scanMain ((contentLines content).length + 1) initP (contentLines content)

/-- Bounds-state extension: the second state's contribution log extends the
first's, and without new contributions nothing changed.  Every reachable
parser state extends its predecessor this way, which is what makes the
fallback-square claim provable. -/
def BExt (b b2 : BState) : Prop :=
  ∃ d, b2.contribs = b.contribs ++ d ∧ (d = [] → b2 = b)

/-- Decidable equality for `Except`, used to evaluate parser runs on
concrete documents. -/
instance exceptDecEq {e a : Type} [DecidableEq e] [DecidableEq a] :
    DecidableEq (Except e a)
  | Except.error e1, Except.error e2 =>
    match decEq e1 e2 with
    | isTrue h => isTrue (by rw [h])
    | isFalse h => isFalse (fun hh => h (by injection hh))
  | Except.error _, Except.ok _ => isFalse (fun hh => Except.noConfusion hh)
  | Except.ok _, Except.error _ => isFalse (fun hh => Except.noConfusion hh)
  | Except.ok a1, Except.ok a2 =>
    match decEq a1 a2 with
    | isTrue h => isTrue (by rw [h])
    | isFalse h => isFalse (fun hh => h (by injection hh))

/-! ## Writer call sequences for the round-trip property (claim C3) -/

/-- One writer call of the four entity-producing operations. -/
inductive DxfCall
  | line (x1 y1 x2 y2 : ℚ) (layer : String) (color : ℤ)
  | polyline (pts : List (ℚ × ℚ)) (layer : String) (color : ℤ) (closed : Bool)
  | circle (cx cy radius : ℚ) (layer : String) (color : ℤ)
  | text (t : String) (x y height : ℚ) (layer : String) (rot : ℚ)
deriving Inhabited

/-- The lines a call pushes. -/
def callLines : DxfCall → List String
  | DxfCall.line x1 y1 x2 y2 layer color => lineLines x1 y1 x2 y2 layer color
  | DxfCall.polyline pts layer color closed => polylineLines pts layer color closed
  | DxfCall.circle cx cy r layer color => circleLines cx cy r layer color
  | DxfCall.text t x y h layer rot => textLines t x y h layer rot

/-- Performing one call on a writer. -/
def applyCall (w : SimpleDxfWriter) : DxfCall → SimpleDxfWriter
  | DxfCall.line x1 y1 x2 y2 layer color => w.addLine x1 y1 x2 y2 layer color
  | DxfCall.polyline pts layer color closed => w.addPolyline pts layer color closed
  | DxfCall.circle cx cy r layer color => w.addCircle cx cy r layer color
  | DxfCall.text t x y h layer rot => w.addText t x y h layer rot

/-- Performing a call sequence. -/
def applyCalls (w : SimpleDxfWriter) (cs : List DxfCall) : SimpleDxfWriter :=
  cs.foldl applyCall w

/-- No character of the string is a newline. -/
def strNlFree (s : String) : Prop := ∀ c ∈ s.data, c ≠ '\n'

/-- The string arguments of the call contain no newline (the amended
round-trip hypothesis; the counterexample shows it is needed). -/
def callNlFree : DxfCall → Prop
  | DxfCall.line _ _ _ _ layer _ => strNlFree layer
  | DxfCall.polyline _ layer _ _ => strNlFree layer
  | DxfCall.circle _ _ _ layer _ => strNlFree layer
  | DxfCall.text t _ _ _ layer _ => strNlFree layer ∧ strNlFree t

/-- The entity the parser reconstructs for one call: same type, layers and
text trimmed, every serialized coordinate rounded to three decimals. -/
def expEnt : DxfCall → DxfEntity
  | DxfCall.line x1 y1 x2 y2 layer color =>
    mkLine ⟨some (trimStr layer), some color, some (round3 x1),
      some (round3 y1), some (round3 x2), some (round3 y2)⟩
  | DxfCall.polyline pts layer color closed =>
    mkPoly ⟨some (trimStr layer), some color, closed⟩
      (pts.map (fun p => (some (round3 p.1), some (round3 p.2))))
  | DxfCall.circle cx cy r layer color =>
    mkCircle ⟨some (trimStr layer), some color, some (round3 cx),
      some (round3 cy), some (round3 r)⟩
  | DxfCall.text t x y h layer _ =>
    mkText ⟨some (trimStr layer), some 7, some (round3 x), some (round3 y),
      jsParseFloat (qRepr h), some (trimStr t)⟩ (trimStr t)

/-- Coordinate agreement between a parsed entity and the originating call:
same entity type, and every serialized coordinate within `0.001`. -/
def entMatches (e : DxfEntity) : DxfCall → Prop
  | DxfCall.line x1 y1 x2 y2 _ _ =>
    e.type = EType.LINE ∧
    ∃ p1x p1y p2x p2y : ℚ,
      e.points = some [(some p1x, some p1y), (some p2x, some p2y)] ∧
      |p1x - x1| ≤ 1 / 1000 ∧ |p1y - y1| ≤ 1 / 1000 ∧
      |p2x - x2| ≤ 1 / 1000 ∧ |p2y - y2| ≤ 1 / 1000
  | DxfCall.polyline pts _ _ _ =>
    e.type = EType.POLYLINE ∧
    ∃ qs : List (JNum × JNum), e.points = some qs ∧ qs.length = pts.length ∧
      ∀ j, j < pts.length → ∃ qx qy : ℚ, qs[j]! = (some qx, some qy) ∧
        |qx - pts[j]!.1| ≤ 1 / 1000 ∧ |qy - pts[j]!.2| ≤ 1 / 1000
  | DxfCall.circle cx cy r _ _ =>
    e.type = EType.CIRCLE ∧
    ∃ qx qy qr : ℚ, e.center = some (some qx, some qy) ∧ e.radius = some qr ∧
      |qx - cx| ≤ 1 / 1000 ∧ |qy - cy| ≤ 1 / 1000 ∧ |qr - r| ≤ 1 / 1000
  | DxfCall.text _ x y _ _ _ =>
    e.type = EType.TEXT ∧
    ∃ qx qy : ℚ, e.x = some qx ∧ e.y = some qy ∧
      |qx - x| ≤ 1 / 1000 ∧ |qy - y| ≤ 1 / 1000

/-- The amended round-trip property: parsing the rendered document of a
call sequence yields one entity per call, of the same type and in the same
order, with all serialized coordinates within the three-decimal tolerance. -/
def RoundTripSpec (calls : List DxfCall) : Prop :=
  ∃ ents bounds,
    parseDxf (applyCalls SimpleDxfWriter.new calls).toString.2 =
        some (Except.ok (ParseResult.mk ents bounds)) ∧
      ents.length = calls.length ∧
      ∀ i, i < calls.length → entMatches ents[i]! calls[i]!

/-- Abbreviation used throughout the round-trip development: the parsed
(3-decimal-rounded) image of a written vertex. -/
def rdPt (p : ℚ × ℚ) : JNum × JNum := (some (round3 p.1), some (round3 p.2))

/-- The tray-layout property of claim C2, amended: everything as claimed,
restricted to panels whose usable flange run is nonnegative
(`W, H ≥ BEND_DEDUCTION = 1.5`); for smaller panels `Math.floor` is `-1`
while the loop places zero holes (see the counterexample). -/
def TrayLayoutSpec (W H : ℚ) : Prop :=
  (trayOuterPts W H).length = 12 ∧
  (∀ p ∈ trayOuterPts W H,
      0 ≤ p.1 ∧ p.1 ≤ W + 2 * 35 - 2 * (3 / 2) ∧
      0 ≤ p.2 ∧ p.2 ≤ H + 2 * 35 - 2 * (3 / 2)) ∧
  (∃ p ∈ trayOuterPts W H, p.1 = 0) ∧
  (∃ p ∈ trayOuterPts W H, p.1 = W + 2 * 35 - 2 * (3 / 2)) ∧
  (∃ p ∈ trayOuterPts W H, p.2 = 0) ∧
  (∃ p ∈ trayOuterPts W H, p.2 = H + 2 * 35 - 2 * (3 / 2)) ∧
  ((holePositions (flatW W)).length : ℤ) =
      ⌊(flatW W - 2 * notchSize) / 150⌋ ∧
  ((holePositions (flatH H)).length : ℤ) =
      ⌊(flatH H - 2 * notchSize) / 150⌋ ∧
  (∀ i, i < (holePositions (flatW W)).length →
      (holePositions (flatW W))[i]! =
        notchSize + ((i : ℚ) + 1) *
          ((flatW W - 2 * notchSize) /
            (((holePositions (flatW W)).length : ℚ) + 1))) ∧
  (∀ i, i < (holePositions (flatH H)).length →
      (holePositions (flatH H))[i]! =
        notchSize + ((i : ℚ) + 1) *
          ((flatH H - 2 * notchSize) /
            (((holePositions (flatH H)).length : ℚ) + 1))) ∧
  (∀ i, i < (holePositions (flatW W)).length →
      (holePositions (flatW W))[i]! +
        (holePositions (flatW W))[(holePositions (flatW W)).length - 1 - i]! =
          flatW W) ∧
  (∀ i, i < (holePositions (flatH H)).length →
      (holePositions (flatH H))[i]! +
        (holePositions (flatH H))[(holePositions (flatH H)).length - 1 - i]! =
          flatH H) ∧
  bottomHoleCenters W = (holePositions (flatW W)).map (fun x => (x, flangeMid)) ∧
  topHoleCenters W H =
    (holePositions (flatW W)).map (fun x => (x, flatH H - flangeMid)) ∧
  leftHoleCenters H = (holePositions (flatH H)).map (fun y => (flangeMid, y)) ∧
  rightHoleCenters W H =
    (holePositions (flatH H)).map (fun y => (flatW W - flangeMid, y))

/-- The frame property of `generateFabricationFiles` on its input part list:
only the hole coordinates of tray panels change, by exactly
`notchSize = 34.25`, once; every other field, the holes of flat panels and
of profiles, and the list shape are preserved. -/
def PartsFrameSpec (parts : List PartGeometry) : Prop :=
  (partsAfterGenerate parts).length = parts.length ∧
  ∀ i, i < parts.length →
    ((partsAfterGenerate parts)[i]!.Part_Name = parts[i]!.Part_Name ∧
     (partsAfterGenerate parts)[i]!.Type' = parts[i]!.Type' ∧
     (partsAfterGenerate parts)[i]!.Material = parts[i]!.Material ∧
     (partsAfterGenerate parts)[i]!.Qty = parts[i]!.Qty ∧
     (partsAfterGenerate parts)[i]!.Width_mm = parts[i]!.Width_mm ∧
     (partsAfterGenerate parts)[i]!.Height_mm = parts[i]!.Height_mm ∧
     (partsAfterGenerate parts)[i]!.Notes = parts[i]!.Notes) ∧
    (¬ (parts[i]!.Type' = PartType.Panel ∧ isTray parts[i]!.Notes = true) →
      (partsAfterGenerate parts)[i]!.Holes = parts[i]!.Holes) ∧
    ((parts[i]!.Type' = PartType.Panel ∧ isTray parts[i]!.Notes = true) →
      ((parts[i]!.Holes = none → (partsAfterGenerate parts)[i]!.Holes = none) ∧
       ∀ hs, parts[i]!.Holes = some hs →
         ∃ hs', (partsAfterGenerate parts)[i]!.Holes = some hs' ∧
           hs'.length = hs.length ∧
           ∀ j, j < hs.length →
             hs'[j]!.X = hs[j]!.X + 137 / 4 ∧
             hs'[j]!.Y = hs[j]!.Y + 137 / 4 ∧
             hs'[j]!.Shape = hs[j]!.Shape ∧
             hs'[j]!.W_or_Dia = hs[j]!.W_or_Dia ∧
             hs'[j]!.H = hs[j]!.H))

/-- The amended rotation property: the written rotation equals the angle in
degrees shifted by `+180` exactly when outside `[-90, 90]`, and it lies in
`[-90, 90] ∪ (270, 360]` (a left-pointing dimension line, angle in
`(90, 180]`, produces a value in `(270, 360]` rather than one in
`(-90, 90]`). -/
def TextRotSpec (x1 y1 x2 y2 : ℝ) (v : Option ℝ) (off : ℝ) : Prop :=
  dimTextRots (addDimensionEntities x1 y1 x2 y2 v off) =
      [dimTextRot x1 y1 x2 y2] ∧
    dimTextRot x1 y1 x2 y2 =
      (if jsAtan2 (y2 - y1) (x2 - x1) * 180 / Real.pi > 90 ∨
          jsAtan2 (y2 - y1) (x2 - x1) * 180 / Real.pi < -90
       then jsAtan2 (y2 - y1) (x2 - x1) * 180 / Real.pi + 180
       else jsAtan2 (y2 - y1) (x2 - x1) * 180 / Real.pi) ∧
    dimTextRot x1 y1 x2 y2 ∈
      Set.Icc (-90 : ℝ) 90 ∪ Set.Ioc (270 : ℝ) 360

/-- The lines of one unrecognized record: a code-0 pair with an unknown
type value, followed by its field pairs. -/
def unkBlock (t : String) (ps : List (String × String)) : List String :=
  "0" :: t :: ps.flatMap (fun p => [p.1, p.2])

/-! ## Theorems for claim C1 -/

/-- The `reduce((a,b) => a+b, 0)` in the source is the list sum. -/
theorem foldl_add_eq_sum (l : List ℚ) : l.foldl (· + ·) 0 = l.sum :=
  List.sum_eq_foldl.symm

/-- C1 counterexample: for `segments = [10, 1, 10]` and `thickness = 2` the
bend positions are `[8, 5]`, which is not strictly increasing, so the claim's
universally quantified monotonicity statement is false as stated. -/
theorem calculateFlatPattern_cex :
    (calculateFlatPattern [10, 1, 10] 2).2 = [8, 5] ∧
      ¬ (calculateFlatPattern [10, 1, 10] 2).2.Chain' (· < ·) := by
  have h : (calculateFlatPattern [10, 1, 10] 2).2 = [8, 5] := by
    norm_num [calculateFlatPattern, List.range_succ]
  refine ⟨h, ?_⟩
  rw [h]
  simp
  norm_num

/-- C1 (amended): for every segment list of length `n ≥ 2` and every
thickness `t`, `calculateFlatPattern` returns
`flatLength = sum - (n-1) * 2t`, a bend-position list of length `n - 1`
whose `i`-th entry is `segments[0] + ... + segments[i] - (i * 2t + t)`; the
list is strictly increasing provided every interior segment (all but the
first and the last) exceeds the bend deduction `2t`. -/
theorem calculateFlatPattern_amended (segments : List ℚ) (t : ℚ)
    (hn : 2 ≤ segments.length) :
    (calculateFlatPattern segments t).1 =
        segments.sum - ((segments.length : ℚ) - 1) * (2 * t) ∧
      (calculateFlatPattern segments t).2.length = segments.length - 1 ∧
      (∀ i, i < segments.length - 1 →
        (calculateFlatPattern segments t).2[i]! =
          (segments.take (i + 1)).sum - ((i : ℚ) * (2 * t) + t)) ∧
      ((∀ k, k < segments.length - 1 → 1 ≤ k → 2 * t < segments[k]!) →
        (calculateFlatPattern segments t).2.Chain' (· < ·)) := by
  have hlen : (calculateFlatPattern segments t).2.length = segments.length - 1 := by
    simp [calculateFlatPattern]
  have hget : ∀ i, i < segments.length - 1 →
      (calculateFlatPattern segments t).2[i]! =
        (segments.take (i + 1)).sum - ((i : ℚ) * (2 * t) + t) := by
    intro i hi
    have hi' : i < (calculateFlatPattern segments t).2.length := by omega
    rw [getElem!_pos (calculateFlatPattern segments t).2 i hi']
    simp only [calculateFlatPattern, List.getElem_map, List.getElem_range]
    rw [foldl_add_eq_sum]
    ring_nf
  refine ⟨?_, hlen, hget, ?_⟩
  · simp only [calculateFlatPattern, foldl_add_eq_sum]
  · intro hmid
    rw [List.chain'_iff_get]
    intro i hi
    have hi2 : i + 1 < segments.length - 1 := by omega
    have hi1 : i < segments.length - 1 := by omega
    have e1 := hget i hi1
    have e2 := hget (i + 1) hi2
    have hiL : i < (calculateFlatPattern segments t).2.length := by omega
    have hi2L : i + 1 < (calculateFlatPattern segments t).2.length := by omega
    rw [List.get_eq_getElem, List.get_eq_getElem,
      ← getElem!_pos (calculateFlatPattern segments t).2 i hiL,
      ← getElem!_pos (calculateFlatPattern segments t).2 (i + 1) hi2L, e1, e2]
    have hseg : i + 1 < segments.length := by omega
    have hsum : (segments.take (i + 1 + 1)).sum =
        (segments.take (i + 1)).sum + segments[i + 1] :=
      List.sum_take_succ _ _ hseg
    have hbig : 2 * t < segments[i + 1]! := hmid (i + 1) hi2 (by omega)
    rw [getElem!_pos segments (i + 1) hseg] at hbig
    rw [hsum]
    push_cast
    linarith

/-- C1 witness: the amended theorem applied to the lip-flange-web-flange-lip
profile `[15, 35, 100, 35, 15]` at thickness 2. -/
theorem calculateFlatPattern_witness :
    (2 ≤ ([15, 35, 100, 35, 15] : List ℚ).length) ∧
      ((calculateFlatPattern [15, 35, 100, 35, 15] 2).1 =
          ([15, 35, 100, 35, 15] : List ℚ).sum -
            ((([15, 35, 100, 35, 15] : List ℚ).length : ℚ) - 1) * (2 * 2) ∧
        (calculateFlatPattern [15, 35, 100, 35, 15] 2).2.length =
          ([15, 35, 100, 35, 15] : List ℚ).length - 1 ∧
        (∀ i, i < ([15, 35, 100, 35, 15] : List ℚ).length - 1 →
          (calculateFlatPattern [15, 35, 100, 35, 15] 2).2[i]! =
            (([15, 35, 100, 35, 15] : List ℚ).take (i + 1)).sum -
              ((i : ℚ) * (2 * 2) + 2)) ∧
        ((∀ k, k < ([15, 35, 100, 35, 15] : List ℚ).length - 1 → 1 ≤ k →
            2 * 2 < ([15, 35, 100, 35, 15] : List ℚ)[k]!) →
          (calculateFlatPattern [15, 35, 100, 35, 15] 2).2.Chain' (· < ·))) :=
  ⟨by simp, calculateFlatPattern_amended _ 2 (by simp)⟩

/-! ## Theorems for claim C2 -/

/-- Helper: with a nonnegative usable run the number of holes placed equals
the floor count (the loop `for i=1; i<=numHoles` places `max 0 numHoles`
holes). -/
theorem holePositions_length (flat : ℚ) (h : 0 ≤ flat - 2 * notchSize) :
    ((holePositions flat).length : ℤ) = numHoles flat := by
  have h0 : 0 ≤ numHoles flat := by
    apply Int.floor_nonneg.mpr
    exact div_nonneg h (by norm_num [holeSpacing])
  rw [holePositions, List.length_map, List.length_range]
  exact Int.toNat_of_nonneg h0

/-- Helper: the `i`-th hole position (0-based) is
`notch + (i+1) * actualSpacing`. -/
theorem holePositions_get (flat : ℚ) (i : ℕ)
    (hi : i < (holePositions flat).length) :
    (holePositions flat)[i]! = notchSize + ((i : ℚ) + 1) * actualSpacing flat := by
  rw [getElem!_pos (holePositions flat) i hi]
  simp only [holePositions, List.getElem_map, List.getElem_range]

/-- Helper: positions and lengthwise symmetry over one flat dimension. -/
theorem holePositions_spec (flat : ℚ) (h : 0 ≤ flat - 2 * notchSize) :
    (∀ i, i < (holePositions flat).length →
      (holePositions flat)[i]! =
        notchSize + ((i : ℚ) + 1) *
          ((flat - 2 * notchSize) / (((holePositions flat).length : ℚ) + 1))) ∧
    (∀ i, i < (holePositions flat).length →
      (holePositions flat)[i]! +
        (holePositions flat)[(holePositions flat).length - 1 - i]! = flat) := by
  have hlen := holePositions_length flat h
  have hcast : ((holePositions flat).length : ℚ) = (numHoles flat : ℚ) := by
    exact_mod_cast congrArg (fun z : ℤ => (z : ℚ)) hlen
  have hpos : ∀ i, i < (holePositions flat).length →
      (holePositions flat)[i]! =
        notchSize + ((i : ℚ) + 1) *
          ((flat - 2 * notchSize) / (((holePositions flat).length : ℚ) + 1)) := by
    intro i hi
    rw [holePositions_get flat i hi]
    rw [actualSpacing, hcast]
  refine ⟨hpos, ?_⟩
  intro i hi
  have hi' : (holePositions flat).length - 1 - i < (holePositions flat).length := by
    omega
  rw [hpos i hi, hpos _ hi']
  have hne : (0 : ℚ) < ((holePositions flat).length : ℚ) + 1 := by positivity
  have hmul : (((holePositions flat).length : ℚ) + 1) *
      ((flat - 2 * notchSize) / (((holePositions flat).length : ℚ) + 1)) =
        flat - 2 * notchSize := by
    field_simp
  have hcast2 : (((holePositions flat).length - 1 - i : ℕ) : ℚ) =
      ((holePositions flat).length : ℚ) - 1 - (i : ℚ) := by
    have : ((holePositions flat).length - 1 - i) + i + 1 =
        (holePositions flat).length := by omega
    have := congrArg (fun n : ℕ => (n : ℚ)) this
    push_cast at this
    linarith
  rw [hcast2]
  nlinarith [hmul]

/-- C2 counterexample: a degenerate tray panel of finished width `0` (notes
empty, so the tray branch runs) gets zero rivet holes on the long flanges,
but `floor(usableLength / 150) = floor(-0.01) = -1`, so the claimed count
equation fails as universally stated. -/
theorem trayLayout_cex :
    isTray none = true ∧
      ¬ (((holePositions (flatW 0)).length : ℤ) =
          ⌊(flatW 0 - 2 * notchSize) / 150⌋) := by
  constructor
  · rfl
  · have harg : (flatW 0 - 2 * notchSize) / 150 = (-1 : ℚ) / 100 := by
      norm_num [flatW, notchSize, FLANGE, BEND_DEDUCTION]
    have hfl : ⌊(flatW 0 - 2 * notchSize) / 150⌋ = -1 := by
      rw [harg]
      refine Int.floor_eq_iff.mpr ?_
      constructor <;> norm_num
    have hnum : numHoles (flatW 0) = -1 := by
      rw [numHoles, holeSpacing]
      exact hfl
    have hlen : (holePositions (flatW 0)).length = 0 := by
      simp [holePositions, hnum]
    rw [hlen, hfl]
    decide

/-- C2 (amended): for every panel whose notes do not mark it flat and whose
finished dimensions are at least `BEND_DEDUCTION = 1.5` (nonnegative usable
flange run), the tray flat pattern's outer cut is the twelve-vertex notched
polygon with bounding box `[0, W + 2*FLANGE - 2*D] × [0, H + 2*FLANGE - 2*D]`
(`FLANGE = 35`, `D = 1.5`); on each flange pair the rivet count equals
`floor(usable / 150)` with `usable` the flat dimension minus two notch
sizes, holes sit at `notch + (i+1) * usable/(count+1)` (even
redistribution), and the hole sequence is symmetric about the flange run's
midline; below the 1.5 mm threshold the loop places zero holes while the
floor is negative. -/
theorem trayLayout_amended (W H : ℚ) (notes : Option String)
    (_hn : isTray notes = true) (hW : 3 / 2 ≤ W) (hH : 3 / 2 ≤ H) :
    TrayLayoutSpec W H := by
  have huW : 0 ≤ flatW W - 2 * notchSize := by
    simp only [flatW, notchSize, FLANGE, BEND_DEDUCTION]
    linarith
  have huH : 0 ≤ flatH H - 2 * notchSize := by
    simp only [flatH, notchSize, FLANGE, BEND_DEDUCTION]
    linarith
  have hWcount := holePositions_length (flatW W) huW
  have hHcount := holePositions_length (flatH H) huH
  have hWspec := holePositions_spec (flatW W) huW
  have hHspec := holePositions_spec (flatH H) huH
  refine ⟨rfl, ?_, ?_, ?_, ?_, ?_, ?_, ?_, hWspec.1, hHspec.1, ?_, ?_,
    rfl, rfl, rfl, rfl⟩
  · intro p hp
    have hn0 : notchSize = 137 / 4 := by
      norm_num [notchSize, FLANGE, BEND_DEDUCTION]
    have hfWe : flatW W = W + 67 := by
      simp only [flatW, FLANGE, BEND_DEDUCTION]
      ring
    have hfHe : flatH H = H + 67 := by
      simp only [flatH, FLANGE, BEND_DEDUCTION]
      ring
    fin_cases hp <;> refine ⟨?_, ?_, ?_, ?_⟩ <;> (dsimp only; linarith)
  · refine ⟨(0, flatH H - notchSize), ?_, rfl⟩
    simp [trayOuterPts]
  · refine ⟨(flatW W, notchSize), ?_, ?_⟩
    · simp [trayOuterPts]
    · show flatW W = W + 2 * 35 - 2 * (3 / 2)
      simp only [flatW, FLANGE, BEND_DEDUCTION]
  · refine ⟨(notchSize, 0), ?_, rfl⟩
    simp [trayOuterPts]
  · refine ⟨(notchSize, flatH H), ?_, ?_⟩
    · simp [trayOuterPts]
    · show flatH H = H + 2 * 35 - 2 * (3 / 2)
      simp only [flatH, FLANGE, BEND_DEDUCTION]
  · rw [hWcount]
    simp [numHoles, holeSpacing]
  · rw [hHcount]
    simp [numHoles, holeSpacing]
  · exact hWspec.2
  · exact hHspec.2

/-- C2 witness: the amended theorem at the tray panel `W = 300`, `H = 200`
with absent notes. -/
theorem trayLayout_witness :
    isTray none = true ∧ (3 / 2 : ℚ) ≤ 300 ∧ (3 / 2 : ℚ) ≤ 200 ∧
      TrayLayoutSpec 300 200 :=
  ⟨rfl, by norm_num, by norm_num,
    trayLayout_amended 300 200 none rfl (by norm_num) (by norm_num)⟩

/-! ## Theorems for claim C4 -/

/-- Joining across an append inserts exactly one separator (both halves
nonempty). -/
theorem joinNl_append (xs ys : List (List Char)) (hx : xs ≠ []) (hy : ys ≠ []) :
    joinNl (xs ++ ys) = joinNl xs ++ '\n' :: joinNl ys := by
  induction xs with
  | nil => exact absurd rfl hx
  | cons x xs ih =>
    cases xs with
    | nil =>
      cases ys with
      | nil => exact absurd rfl hy
      | cons y ys => simp [joinNl]
    | cons x2 xs2 =>
      have h2 : joinNl (x :: x2 :: (xs2 ++ ys)) =
          x ++ '\n' :: joinNl (x2 :: (xs2 ++ ys)) := rfl
      have h3 : joinNl (x :: x2 :: xs2) = x ++ '\n' :: joinNl (x2 :: xs2) := rfl
      have h4 := ih (by simp)
      simp only [List.cons_append] at h4 ⊢
      rw [h2, h3, h4]
      simp

set_option maxRecDepth 8000 in
/-- C4 counterexample: on a fresh writer, calling `toString` twice gives two
different strings (the second call pushes the ENDSEC/EOF footer into the
buffer again), so `render` is not idempotent as claimed. -/
theorem render_cex :
    (SimpleDxfWriter.new.toString.1.toString).2 ≠ SimpleDxfWriter.new.toString.2 := by
  decide

/-- C4 (amended): `toString` mutates the writer: a second call returns the
first output extended by one more newline-separated ENDSEC/EOF footer, hence
never the same string. -/
theorem render_amended (w : SimpleDxfWriter) :
    (w.toString.1.toString).2 = w.toString.2 ++ "\n0\nENDSEC\n0\nEOF" ∧
      (w.toString.1.toString).2 ≠ w.toString.2 := by
  have hne : ((w.content ++ dxfFooter).map String.data) ≠ [] := by
    simp [dxfFooter]
  have hfoot : (dxfFooter.map String.data) ≠ ([] : List (List Char)) := by
    simp [dxfFooter]
  have h2 : (w.toString.1.toString).2 =
      String.mk (joinNl ((w.content ++ dxfFooter).map String.data) ++
        '\n' :: joinNl (dxfFooter.map String.data)) := by
    show String.mk (joinNl (((w.content ++ dxfFooter) ++ dxfFooter).map String.data)) = _
    rw [List.map_append, joinNl_append _ _ hne hfoot]
  have hsuffix : '\n' :: joinNl (dxfFooter.map String.data) =
      ("\n0\nENDSEC\n0\nEOF" : String).data := by decide
  have hmain : (w.toString.1.toString).2 = w.toString.2 ++ "\n0\nENDSEC\n0\nEOF" := by
    rw [h2, hsuffix]
    rfl
  refine ⟨hmain, ?_⟩
  intro hEq
  have hdata := congrArg String.data (hmain.symm.trans hEq)
  rw [String.data_append] at hdata
  have hlen := congrArg List.length hdata
  simp at hlen

/-! ## Theorems for claim C9 -/

/-- C9: `generateFabricationFiles` mutates its input only in the hole
coordinates of tray panels, adding the notch size `FLANGE - D/2 = 34.25` to
both coordinates of each supplied hole exactly once; all other fields and
all other parts are unchanged. -/
theorem partsAfterGenerate_spec (parts : List PartGeometry) :
    PartsFrameSpec parts := by
  have hn : notchSize = 137 / 4 := by
    norm_num [notchSize, FLANGE, BEND_DEDUCTION]
  refine ⟨by simp [partsAfterGenerate], ?_⟩
  intro i hi
  have hi' : i < (partsAfterGenerate parts).length := by
    simpa [partsAfterGenerate] using hi
  have hafter : (partsAfterGenerate parts)[i]! = processPart parts[i]! := by
    rw [getElem!_pos (partsAfterGenerate parts) i hi', getElem!_pos parts i hi]
    simp [partsAfterGenerate]
  by_cases hc : parts[i]!.Type' = PartType.Panel ∧ isTray parts[i]!.Notes = true
  · have hproc : processPart parts[i]! =
        { parts[i]! with
          Holes := parts[i]!.Holes.map (fun hs => hs.map remapHole) } := by
      rw [processPart, if_pos]
      exact ⟨hc.1, hc.2⟩
    rw [hafter, hproc]
    refine ⟨⟨rfl, rfl, rfl, rfl, rfl, rfl, rfl⟩, ?_, ?_⟩
    · intro hnc
      exact absurd hc hnc
    · intro _
      constructor
      · intro hnone
        simp [hnone]
      · intro hs hsome
        refine ⟨hs.map remapHole, by simp [hsome], by simp, ?_⟩
        intro j hj
        have hj' : j < (hs.map remapHole).length := by simpa using hj
        rw [getElem!_pos (hs.map remapHole) j hj', getElem!_pos hs j hj]
        simp [remapHole, hn]
  · have hproc : processPart parts[i]! = parts[i]! := by
      rw [processPart, if_neg]
      intro h
      exact hc ⟨h.1, h.2⟩
    rw [hafter, hproc]
    exact ⟨⟨rfl, rfl, rfl, rfl, rfl, rfl, rfl⟩, fun _ => rfl, fun h => absurd h hc⟩

/-- C9 witness: the frame property at a concrete three-part list (a tray
panel with one hole, a flat plate with one hole, a profile). -/
theorem partsAfterGenerate_witness :
    PartsFrameSpec
      [⟨"Outer_Side", PartType.Panel, "0.8mm Galv", 2, 300, 200, none,
          some [⟨HoleShape.Circle, 50, 60, 12, none⟩]⟩,
       ⟨"Plate_A", PartType.Panel, "0.8mm Galv", 1, 200, 100, some "Flat",
          some [⟨HoleShape.Rect, 20, 30, 10, some 5⟩]⟩,
       ⟨"C-Ch 100x50x15", PartType.Profile, "2.0mm GI", 4, 2000, 100, none,
          none⟩] :=
  partsAfterGenerate_spec _

/-! ## Theorems for claims C5 and C6 -/

/-- Helper: past the distance guard, `addDimension` writes exactly one text
entity, whose rotation is `dimTextRot`. -/
theorem dimTextRots_addDimension (x1 y1 x2 y2 : ℝ) (v : Option ℝ) (off : ℝ)
    (h : ¬ Real.sqrt ((x2 - x1) ^ 2 + (y2 - y1) ^ 2) < 0.1) :
    dimTextRots (addDimensionEntities x1 y1 x2 y2 v off) =
      [dimTextRot x1 y1 x2 y2] := by
  simp only [addDimensionEntities]
  rw [if_neg h]
  simp [dimTextRots]

/-- Helper: `jsAtan2` lands in `(-pi, pi]`. -/
theorem jsAtan2_mem (y x : ℝ) :
    jsAtan2 y x ∈ Set.Ioc (-Real.pi) Real.pi := by
  have hpi := Real.pi_pos
  have hlt := Real.arctan_lt_pi_div_two (y / x)
  have hgt := Real.neg_pi_div_two_lt_arctan (y / x)
  rw [jsAtan2]
  split_ifs with h1 h2 h3 h4 h5
  · exact ⟨by linarith, by linarith⟩
  · have hyx : y / x ≤ 0 := div_nonpos_of_nonneg_of_nonpos h3 (le_of_lt h2)
    have : Real.arctan (y / x) ≤ 0 := by
      have := Real.arctan_strictMono.monotone hyx
      rwa [Real.arctan_zero] at this
    exact ⟨by linarith, by linarith⟩
  · have hy : y < 0 := lt_of_not_le h3
    have hyx : 0 < y / x := div_pos_of_neg_of_neg hy h2
    have : 0 < Real.arctan (y / x) := by
      have := Real.arctan_strictMono hyx
      rwa [Real.arctan_zero] at this
    exact ⟨by linarith, by linarith⟩
  · exact ⟨by linarith, by linarith⟩
  · exact ⟨by linarith, by linarith⟩
  · exact ⟨by linarith, by linarith⟩

/-- C6: a dimension whose endpoints are closer than `0.1` appends no
entities at all. -/
theorem addDimension_suppressed (x1 y1 x2 y2 : ℝ) (v : Option ℝ) (off : ℝ)
    (h : Real.sqrt ((x2 - x1) ^ 2 + (y2 - y1) ^ 2) < 0.1) :
    addDimensionEntities x1 y1 x2 y2 v off = [] := by
  simp only [addDimensionEntities]
  rw [if_pos h]

/-- C6 witness: the suppression theorem at the concrete call from `(0,0)` to
`(0.05, 0)` (distance `0.05 < 0.1`). -/
theorem addDimension_suppressed_witness :
    Real.sqrt (((1 / 20 : ℝ) - 0) ^ 2 + ((0 : ℝ) - 0) ^ 2) < 0.1 ∧
      addDimensionEntities 0 0 (1 / 20) 0 none 20 = [] := by
  have hs : Real.sqrt (((1 / 20 : ℝ) - 0) ^ 2 + ((0 : ℝ) - 0) ^ 2) = 1 / 20 := by
    rw [show ((1 / 20 : ℝ) - 0) ^ 2 + ((0 : ℝ) - 0) ^ 2 = (1 / 20) ^ 2 by norm_num]
    exact Real.sqrt_sq (by norm_num)
  have h : Real.sqrt (((1 / 20 : ℝ) - 0) ^ 2 + ((0 : ℝ) - 0) ^ 2) < 0.1 := by
    rw [hs]
    norm_num
  exact ⟨h, addDimension_suppressed 0 0 (1 / 20) 0 none 20 h⟩

/-- C5 counterexample: the dimension from `(10,0)` to `(0,0)` has angle
`pi` (180 degrees), and the rotation written on its text entity is
`180 + 180 = 360`, which does not lie in `(-90, 90]`; so the claimed
normalization into that interval is false. -/
theorem textRot_cex :
    dimTextRots (addDimensionEntities 10 0 0 0 none 20) = [(360 : ℝ)] ∧
      (360 : ℝ) ∉ Set.Ioc (-90 : ℝ) 90 := by
  have hpi := Real.pi_pos
  have hs : Real.sqrt (((0 : ℝ) - 10) ^ 2 + ((0 : ℝ) - 0) ^ 2) = 10 := by
    rw [show ((0 : ℝ) - 10) ^ 2 + ((0 : ℝ) - 0) ^ 2 = 10 ^ 2 by norm_num]
    exact Real.sqrt_sq (by norm_num)
  have hguard : ¬ Real.sqrt (((0 : ℝ) - 10) ^ 2 + ((0 : ℝ) - 0) ^ 2) < 0.1 := by
    rw [hs]
    norm_num
  have hangle : jsAtan2 ((0 : ℝ) - 0) ((0 : ℝ) - 10) = Real.pi := by
    rw [jsAtan2]
    rw [if_neg (by norm_num), if_pos (by norm_num), if_pos (by norm_num)]
    norm_num [Real.arctan_zero]
  have hdeg : jsAtan2 ((0 : ℝ) - 0) ((0 : ℝ) - 10) * 180 / Real.pi = 180 := by
    rw [hangle]
    field_simp
  have hrot : dimTextRot 10 0 0 0 = 360 := by
    rw [dimTextRot]
    simp only [hdeg]
    rw [if_pos (by norm_num)]
    norm_num
  refine ⟨?_, ?_⟩
  · rw [dimTextRots_addDimension 10 0 0 0 none 20 hguard, hrot]
  · intro hmem
    have := hmem.2
    linarith

/-- C5 (amended): for every dimension past the distance guard, the text
rotation is the dimension line's angle in degrees, shifted by `+180` when
outside `[-90, 90]`; the result lies in `[-90, 90] ∪ (270, 360]`, not in
`(-90, 90]` as claimed (angle `180` maps to `360`, and angle `-90` stays
`-90`). -/
theorem textRot_amended (x1 y1 x2 y2 : ℝ) (v : Option ℝ) (off : ℝ)
    (h : (0.1 : ℝ) ≤ Real.sqrt ((x2 - x1) ^ 2 + (y2 - y1) ^ 2)) :
    TextRotSpec x1 y1 x2 y2 v off := by
  have hguard : ¬ Real.sqrt ((x2 - x1) ^ 2 + (y2 - y1) ^ 2) < 0.1 :=
    not_lt.mpr h
  have hpi := Real.pi_pos
  obtain ⟨ha1, ha2⟩ := jsAtan2_mem (y2 - y1) (x2 - x1)
  set A := jsAtan2 (y2 - y1) (x2 - x1) with hA
  have hscale : (0 : ℝ) < 180 / Real.pi := by positivity
  have hdeg2 : A * 180 / Real.pi ≤ 180 := by
    rw [mul_div_assoc]
    calc A * (180 / Real.pi) ≤ Real.pi * (180 / Real.pi) :=
          mul_le_mul_of_nonneg_right ha2 (le_of_lt hscale)
      _ = 180 := by field_simp
  have hdeg1 : -180 < A * 180 / Real.pi := by
    rw [mul_div_assoc]
    have hstep := mul_lt_mul_of_pos_right ha1 hscale
    have hneg : -Real.pi * (180 / Real.pi) = -180 := by
      field_simp
      ring
    rw [hneg] at hstep
    exact hstep
  refine ⟨dimTextRots_addDimension x1 y1 x2 y2 v off hguard, ?_, ?_⟩
  · rw [dimTextRot]
  · rw [dimTextRot]
    simp only [← hA]
    split_ifs with hc
    · rcases hc with hbig | hsmall
      · right
        exact ⟨by linarith, by linarith⟩
      · left
        exact ⟨by linarith, by linarith⟩
    · push_neg at hc
      left
      exact ⟨by linarith [hc.2], by linarith [hc.1]⟩

/-- C5 witness: the amended theorem at the horizontal dimension from
`(0,0)` to `(10,0)` (angle `0`, rotation `0`). -/
theorem textRot_witness :
    (0.1 : ℝ) ≤ Real.sqrt (((10 : ℝ) - 0) ^ 2 + ((0 : ℝ) - 0) ^ 2) ∧
      TextRotSpec 0 0 10 0 none 20 := by
  have hs : Real.sqrt (((10 : ℝ) - 0) ^ 2 + ((0 : ℝ) - 0) ^ 2) = 10 := by
    rw [show ((10 : ℝ) - 0) ^ 2 + ((0 : ℝ) - 0) ^ 2 = 10 ^ 2 by norm_num]
    exact Real.sqrt_sq (by norm_num)
  have h : (0.1 : ℝ) ≤ Real.sqrt (((10 : ℝ) - 0) ^ 2 + ((0 : ℝ) - 0) ^ 2) := by
    rw [hs]
    norm_num
  exact ⟨h, textRot_amended 0 0 10 0 none 20 h⟩

/-! ## Decimal printing and parsing round-trip lemmas -/

/-- Digits produced by `natDigits` are decimal digits. -/
theorem natDigits_isDigit : ∀ n : ℕ, ∀ c ∈ natDigits n, c.isDigit = true := by
  intro n
  induction n using Nat.strong_induction_on with
  | _ n ih =>
    intro c hc
    rw [natDigits] at hc
    by_cases h : n < 10
    · rw [dif_pos h] at hc
      simp at hc
      subst hc
      interval_cases n <;> decide
    · rw [dif_neg h] at hc
      rcases List.mem_append.mp hc with h1 | h2
      · exact ih (n / 10) (Nat.div_lt_self (by omega) (by omega)) c h1
      · simp at h2
        subst h2
        have h10 : n % 10 < 10 := Nat.mod_lt _ (by omega)
        interval_cases hmod : n % 10 <;> decide

/-- `natDigits` is never empty. -/
theorem natDigits_ne_nil (n : ℕ) : natDigits n ≠ [] := by
  rw [natDigits]
  split <;> simp

/-- Folding the digit accumulator over a suffix. -/
theorem foldl_digits_acc (b : List Char) :
    ∀ acc : ℕ, b.foldl (fun a c => 10 * a + (c.toNat - 48)) acc =
      acc * 10 ^ b.length + digitsToNat b := by
  induction b with
  | nil => intro acc; simp [digitsToNat]
  | cons c cs ih =>
    intro acc
    have h1 : digitsToNat (c :: cs) =
        (c.toNat - 48) * 10 ^ cs.length + digitsToNat cs := by
      rw [digitsToNat]
      simp only [List.foldl_cons]
      rw [ih (10 * 0 + (c.toNat - 48))]
      simp
    simp only [List.foldl_cons]
    rw [ih (10 * acc + (c.toNat - 48)), h1]
    simp [List.length_cons, pow_succ]
    ring

/-- `digitsToNat` across an append. -/
theorem digitsToNat_append (a b : List Char) :
    digitsToNat (a ++ b) = digitsToNat a * 10 ^ b.length + digitsToNat b := by
  rw [digitsToNat, List.foldl_append]
  rw [foldl_digits_acc b]
  rfl

/-- Parsing the printed digits of a natural number gives it back. -/
theorem digitsToNat_natDigits : ∀ n : ℕ, digitsToNat (natDigits n) = n := by
  intro n
  induction n using Nat.strong_induction_on with
  | _ n ih =>
    rw [natDigits]
    by_cases h : n < 10
    · rw [dif_pos h]
      interval_cases n <;> decide
    · rw [dif_neg h]
      rw [digitsToNat_append]
      have h1 := ih (n / 10) (Nat.div_lt_self (by omega) (by omega))
      have h2 : digitsToNat [Char.ofNat (48 + n % 10)] = n % 10 := by
        have h10 : n % 10 < 10 := Nat.mod_lt _ (by omega)
        interval_cases hmod : n % 10 <;> decide
      rw [h1, h2]
      simp
      omega

/-- Digit-count bound for `natDigits`. -/
theorem natDigits_length_le : ∀ k m : ℕ, m < 10 ^ (k + 1) →
    (natDigits m).length ≤ k + 1 := by
  intro k
  induction k with
  | zero =>
    intro m hm
    rw [natDigits, dif_pos (by simpa using hm)]
    simp
  | succ k ih =>
    intro m hm
    rw [natDigits]
    split
    · simp
    · rw [List.length_append]
      have hdiv : m / 10 < 10 ^ (k + 1) := by
        rw [Nat.div_lt_iff_lt_mul (by omega)]
        calc m < 10 ^ (k + 2) := hm
          _ = 10 ^ (k + 1) * 10 := by ring
      have := ih (m / 10) hdiv
      simp
      omega

/-- `takeWhile isDigit` across digits-then-boundary. -/
theorem takeWhile_digits_append (ds rest : List Char)
    (hd : ∀ c ∈ ds, c.isDigit = true)
    (hr : rest = [] ∨ ∃ c cs, rest = c :: cs ∧ c.isDigit = false) :
    (ds ++ rest).takeWhile Char.isDigit = ds ∧
      (ds ++ rest).dropWhile Char.isDigit = rest := by
  induction ds with
  | nil =>
    rcases hr with h | ⟨c, cs, rfl, hc⟩
    · subst h
      simp
    · simp [List.takeWhile_cons, List.dropWhile_cons, hc]
  | cons d ds ih =>
    have hdd : d.isDigit = true := hd d (by simp)
    have hrest := ih (fun c hc => hd c (by simp [hc]))
    simp only [List.cons_append, List.takeWhile_cons, List.dropWhile_cons, hdd]
    simp only [if_true]
    exact ⟨by rw [hrest.1], by rw [hrest.2]⟩

/-- A digit is not whitespace. -/
theorem digit_not_ws (c : Char) (h : c.isDigit = true) :
    c.isWhitespace = false := by
  by_contra hw
  have hw2 : c.isWhitespace = true := by
    cases hc : c.isWhitespace
    · exact absurd hc hw
    · rfl
  rw [Char.isWhitespace] at hw2
  simp only [Bool.or_eq_true, decide_eq_true_eq] at hw2
  rcases hw2 with ((h1 | h1) | h1) | h1 <;> subst h1 <;> exact absurd h (by decide)

/-- `pad3` has exactly three digit characters for a sub-1000 value. -/
theorem pad3_spec (m : ℕ) (hm : m < 1000) :
    (pad3 m).length = 3 ∧ (∀ c ∈ pad3 m, c.isDigit = true) ∧
      digitsToNat (pad3 m) = m := by
  have hlen : (natDigits m).length ≤ 3 := natDigits_length_le 2 m (by omega)
  refine ⟨?_, ?_, ?_⟩
  · rw [pad3, List.length_append, List.length_replicate]
    omega
  · intro c hc
    rw [pad3] at hc
    rcases List.mem_append.mp hc with h1 | h2
    · have := List.eq_of_mem_replicate h1
      subst this
      decide
    · exact natDigits_isDigit m c h2
  · rw [pad3, digitsToNat_append]
    have hz : ∀ k, digitsToNat (List.replicate k '0') = 0 := by
      intro k
      induction k with
      | zero => decide
      | succ k ih =>
        show digitsToNat ('0' :: List.replicate k '0') = 0
        rw [digitsToNat]
        simp only [List.foldl_cons]
        rw [foldl_digits_acc, ih]
        have h0 : 10 * 0 + ('0'.toNat - 48) = 0 := by decide
        rw [h0]
        simp
    rw [hz, digitsToNat_natDigits]
    simp

/-- A digit character is none of the special literal characters. -/
theorem digit_ne_special (c : Char) (h : c.isDigit = true) :
    c ≠ '-' ∧ c ≠ '+' ∧ c ≠ '\n' ∧ c ≠ '.' ∧ c ≠ '/' := by
  refine ⟨?_, ?_, ?_, ?_, ?_⟩ <;> intro hEq <;> subst hEq <;>
    exact absurd h (by decide)

/-- Dropping a predicate that holds nowhere drops nothing. -/
theorem dropWhile_eq_self_of_none {p : Char → Bool} :
    ∀ cs : List Char, (∀ c ∈ cs, p c = false) → cs.dropWhile p = cs := by
  intro cs h
  cases cs with
  | nil => rfl
  | cons c r =>
    rw [List.dropWhile_cons, h c (by simp)]
    simp

/-- Trimming is the identity on whitespace-free character lists. -/
theorem trimChars_id (cs : List Char) (h : ∀ c ∈ cs, c.isWhitespace = false) :
    trimChars cs = cs := by
  rw [trimChars]
  rw [dropWhile_eq_self_of_none cs h]
  rw [dropWhile_eq_self_of_none cs.reverse (fun c hc => h c (List.mem_reverse.mp hc))]
  simp

/-- Character inventory of `fmt3`: sign, digits, dot. -/
theorem fmt3_chars (q : ℚ) :
    ∀ c ∈ (fmt3 q).data, c.isDigit = true ∨ c = '-' ∨ c = '.' := by
  intro c hc
  rw [fmt3] at hc
  have hc2 : c ∈ (if q < 0 then ['-'] else []) ++
      natDigits ((fix3 q).toNat / 1000) ++ '.' :: pad3 ((fix3 q).toNat % 1000) := hc
  rcases List.mem_append.mp hc2 with h1 | h2
  · rcases List.mem_append.mp h1 with h3 | h4
    · right
      left
      split at h3 <;> simp_all
    · left
      exact natDigits_isDigit _ c h4
  · rcases List.mem_cons.mp h2 with h3 | h4
    · right
      right
      exact h3
    · left
      exact (pad3_spec _ (Nat.mod_lt _ (by norm_num))).2.1 c h4

/-- `fmt3` output contains no whitespace and no newline. -/
theorem fmt3_clean (q : ℚ) :
    ∀ c ∈ (fmt3 q).data, c.isWhitespace = false ∧ c ≠ '\n' := by
  intro c hc
  rcases fmt3_chars q c hc with h | h | h
  · exact ⟨digit_not_ws c h, (digit_ne_special c h).2.2.1⟩
  · subst h
    exact ⟨by decide, by decide⟩
  · subst h
    exact ⟨by decide, by decide⟩

/-- Character inventory of `intRepr`: sign and digits. -/
theorem intRepr_chars (n : ℤ) :
    ∀ c ∈ (intRepr n).data, c.isDigit = true ∨ c = '-' := by
  intro c hc
  rw [intRepr] at hc
  split at hc
  · have hc2 : c ∈ '-' :: natDigits (-n).toNat := hc
    rcases List.mem_cons.mp hc2 with h | h
    · right
      exact h
    · left
      exact natDigits_isDigit _ c h
  · left
    exact natDigits_isDigit _ c hc

/-- `intRepr` output contains no whitespace and no newline. -/
theorem intRepr_clean (n : ℤ) :
    ∀ c ∈ (intRepr n).data, c.isWhitespace = false ∧ c ≠ '\n' := by
  intro c hc
  rcases intRepr_chars n c hc with h | h
  · exact ⟨digit_not_ws c h, (digit_ne_special c h).2.2.1⟩
  · subst h
    exact ⟨by decide, by decide⟩

/-- `qRepr` output contains no whitespace and no newline. -/
theorem qRepr_clean (q : ℚ) :
    ∀ c ∈ (qRepr q).data, c.isWhitespace = false ∧ c ≠ '\n' := by
  intro c hc
  rw [qRepr] at hc
  split at hc
  · exact intRepr_clean _ c hc
  · rw [String.data_append] at hc
    rcases List.mem_append.mp hc with h1 | h2
    · exact intRepr_clean _ c h1
    · have h2b : c ∈ '/' :: natDigits q.den := h2
      rcases List.mem_cons.mp h2b with h3 | h4
      · subst h3
        exact ⟨by decide, by decide⟩
      · have hd := natDigits_isDigit _ c h4
        exact ⟨digit_not_ws c hd, (digit_ne_special c hd).2.2.1⟩

/-- `fix3` is nonnegative. -/
theorem fix3_nonneg (q : ℚ) : 0 ≤ fix3 q := by
  rw [fix3]
  apply Int.floor_nonneg.mpr
  positivity

/-- `splitSign` after a leading minus. -/
theorem splitSign_minus (r : List Char) : splitSign ('-' :: r) = (true, r) := by
  simp [splitSign]

/-- `splitSign` before a digit. -/
theorem splitSign_digit (c : Char) (r : List Char) (h : c.isDigit = true) :
    splitSign (c :: r) = (false, c :: r) := by
  obtain ⟨h1, h2, -⟩ := digit_ne_special c h
  simp [splitSign, h1, h2]

/-- Round trip for the integer serializer: `parseInt` of `n.toString` is
`n`. -/
theorem jsParseInt_intRepr (n : ℤ) : jsParseInt (intRepr n) = some n := by
  by_cases hn : n < 0
  · have hdata : (intRepr n).data = '-' :: natDigits (-n).toNat := by
      rw [intRepr, if_pos hn]
    rw [jsParseInt, hdata]
    rw [dropWhile_eq_self_of_none _ ?hws]
    case hws =>
      intro c hc
      rcases List.mem_cons.mp hc with h | h
      · subst h
        decide
      · exact digit_not_ws c (natDigits_isDigit _ c h)
    rw [splitSign_minus]
    have htake : (natDigits (-n).toNat).takeWhile Char.isDigit =
        natDigits (-n).toNat := by
      have := takeWhile_digits_append (natDigits (-n).toNat) []
        (natDigits_isDigit _) (Or.inl rfl)
      simpa using this.1
    simp only [htake]
    rw [if_neg (by simp [natDigits_ne_nil])]
    rw [digitsToNat_natDigits]
    congr 1
    have : ((-n).toNat : ℤ) = -n := Int.toNat_of_nonneg (by omega)
    simp
    omega
  · have hdata : (intRepr n).data = natDigits n.toNat := by
      rw [intRepr, if_neg hn]
    obtain ⟨d, ds, hds⟩ := List.exists_cons_of_ne_nil (natDigits_ne_nil n.toNat)
    have hddig : d.isDigit = true := natDigits_isDigit _ d (by rw [hds]; simp)
    rw [jsParseInt, hdata]
    rw [dropWhile_eq_self_of_none _
      (fun c hc => digit_not_ws c (natDigits_isDigit _ c hc))]
    rw [hds, splitSign_digit d ds hddig, ← hds]
    have htake : (natDigits n.toNat).takeWhile Char.isDigit = natDigits n.toNat := by
      have := takeWhile_digits_append (natDigits n.toNat) []
        (natDigits_isDigit _) (Or.inl rfl)
      simpa using this.1
    simp only [htake]
    rw [if_neg (by simp [natDigits_ne_nil])]
    rw [digitsToNat_natDigits]
    congr 1
    simp
    omega

theorem jsParseFloat_fmt3 (q : ℚ) : jsParseFloat (fmt3 q) = some (round3 q) := by
  have hmod : (fix3 q).toNat % 1000 < 1000 := Nat.mod_lt _ (by norm_num)
  obtain ⟨hplen, hpdig, hpval⟩ := pad3_spec ((fix3 q).toNat % 1000) hmod
  have hint : ∀ c ∈ natDigits ((fix3 q).toNat / 1000), c.isDigit = true :=
    natDigits_isDigit _
  have hsplit := takeWhile_digits_append (natDigits ((fix3 q).toNat / 1000))
    ('.' :: pad3 ((fix3 q).toNat % 1000)) hint
    (Or.inr ⟨'.', _, rfl, by decide⟩)
  have hfrac := takeWhile_digits_append (pad3 ((fix3 q).toNat % 1000)) []
    hpdig (Or.inl rfl)
  have hfr1 : (pad3 ((fix3 q).toNat % 1000)).takeWhile Char.isDigit =
      pad3 ((fix3 q).toNat % 1000) := by
    simpa using hfrac.1
  have hval : ((digitsToNat (natDigits ((fix3 q).toNat / 1000)) : ℚ) +
      (digitsToNat (pad3 ((fix3 q).toNat % 1000)) : ℚ) /
        10 ^ (pad3 ((fix3 q).toNat % 1000)).length) =
      ((fix3 q).toNat : ℚ) / 1000 := by
    rw [digitsToNat_natDigits, hpval, hplen]
    have hdm : (fix3 q).toNat / 1000 * 1000 + (fix3 q).toNat % 1000 =
        (fix3 q).toNat := by omega
    have hq2 := congrArg (fun n : ℕ => (n : ℚ)) hdm
    push_cast at hq2
    field_simp
    linarith
  have hcast : ((fix3 q).toNat : ℚ) = ((fix3 q : ℤ) : ℚ) := by
    exact_mod_cast congrArg (fun z : ℤ => (z : ℚ))
      (Int.toNat_of_nonneg (fix3_nonneg q))
  have hne : ¬ ((natDigits ((fix3 q).toNat / 1000)).isEmpty = true ∧
      (pad3 ((fix3 q).toNat % 1000)).isEmpty = true) := by
    simp [natDigits_ne_nil]
  have hRclean : ∀ c ∈ natDigits ((fix3 q).toNat / 1000) ++
      '.' :: pad3 ((fix3 q).toNat % 1000), c.isWhitespace = false := by
    intro c hc
    rcases List.mem_append.mp hc with h1 | h2
    · exact digit_not_ws c (hint c h1)
    · rcases List.mem_cons.mp h2 with h3 | h4
      · subst h3
        decide
      · exact digit_not_ws c (hpdig c h4)
  by_cases hq : q < 0
  · have hdata : (fmt3 q).data =
        '-' :: (natDigits ((fix3 q).toNat / 1000) ++
          '.' :: pad3 ((fix3 q).toNat % 1000)) := by
      rw [fmt3, if_pos hq]
      rfl
    have hdw : ('-' :: (natDigits ((fix3 q).toNat / 1000) ++
        '.' :: pad3 ((fix3 q).toNat % 1000))).dropWhile Char.isWhitespace =
        '-' :: (natDigits ((fix3 q).toNat / 1000) ++
          '.' :: pad3 ((fix3 q).toNat % 1000)) := by
      apply dropWhile_eq_self_of_none
      intro c hc
      rcases List.mem_cons.mp hc with h | h
      · subst h
        decide
      · exact hRclean c h
    simp only [jsParseFloat, hdata, hdw, splitSign_minus, hsplit.1, hsplit.2,
      hfr1]
    rw [if_neg hne]
    rw [hval]
    rw [round3, if_pos hq, hcast]
    simp
    ring
  · have hdata : (fmt3 q).data =
        natDigits ((fix3 q).toNat / 1000) ++
          '.' :: pad3 ((fix3 q).toNat % 1000) := by
      rw [fmt3, if_neg hq]
      rfl
    obtain ⟨d, ds, hds⟩ :=
      List.exists_cons_of_ne_nil (natDigits_ne_nil ((fix3 q).toNat / 1000))
    have hddig : d.isDigit = true := hint d (by rw [hds]; simp)
    have hdw : (natDigits ((fix3 q).toNat / 1000) ++
        '.' :: pad3 ((fix3 q).toNat % 1000)).dropWhile Char.isWhitespace =
        natDigits ((fix3 q).toNat / 1000) ++
          '.' :: pad3 ((fix3 q).toNat % 1000) :=
      dropWhile_eq_self_of_none _ hRclean
    have hss : splitSign (natDigits ((fix3 q).toNat / 1000) ++
        '.' :: pad3 ((fix3 q).toNat % 1000)) =
        (false, natDigits ((fix3 q).toNat / 1000) ++
          '.' :: pad3 ((fix3 q).toNat % 1000)) := by
      rw [hds, List.cons_append, splitSign_digit d _ hddig, ← List.cons_append,
        ← hds]
    simp only [jsParseFloat, hdata, hdw, hss, hsplit.1, hsplit.2, hfr1]
    rw [if_neg hne]
    rw [hval]
    rw [round3, if_neg hq, hcast]
    simp

/-- The serialized coordinate is within one thousandth of the original. -/
theorem round3_close (q : ℚ) : |round3 q - q| ≤ 1 / 1000 := by
  have h1 : (fix3 q : ℚ) ≤ |q| * 1000 + 1 / 2 := Int.floor_le _
  have h2 : |q| * 1000 + 1 / 2 - 1 < (fix3 q : ℚ) := Int.sub_one_lt_floor _
  rw [abs_le]
  by_cases hq : q < 0
  · rw [round3, if_pos hq]
    have habs : |q| = -q := abs_of_neg hq
    rw [habs] at h1 h2
    constructor <;> nlinarith
  · rw [round3, if_neg hq]
    have habs : |q| = q := abs_of_nonneg (not_lt.mp hq)
    rw [habs] at h1 h2
    constructor <;> nlinarith

/-! ## Split and join lemmas -/

/-- Splitting a newline-free line is the singleton. -/
theorem splitNl_nlfree (l : List Char) (h : ∀ c ∈ l, c ≠ '\n') :
    splitNl l = [l] := by
  induction l with
  | nil => rfl
  | cons c cs ih =>
    rw [splitNl]
    rw [if_neg (h c (by simp))]
    rw [ih (fun c hc => h c (by simp [hc]))]
    rfl

/-- Splitting after one newline-free line and a separator. -/
theorem splitNl_line (l t : List Char) (h : ∀ c ∈ l, c ≠ '\n') :
    splitNl (l ++ '\n' :: t) = l :: splitNl t := by
  induction l with
  | nil =>
    show splitNl ('\n' :: t) = [] :: splitNl t
    rw [splitNl]
    simp
  | cons c cs ih =>
    show splitNl (c :: (cs ++ '\n' :: t)) = (c :: cs) :: splitNl t
    rw [splitNl]
    rw [if_neg (h c (by simp))]
    rw [ih (fun c hc => h c (by simp [hc]))]
    rfl

/-- `split('\n')` inverts `join('\n')` on nonempty lists of newline-free
lines. -/
theorem splitNl_joinNl : ∀ lss : List (List Char), lss ≠ [] →
    (∀ l ∈ lss, ∀ c ∈ l, c ≠ '\n') → splitNl (joinNl lss) = lss := by
  intro lss
  induction lss with
  | nil => intro h; exact absurd rfl h
  | cons l ls ih =>
    intro _ h
    cases ls with
    | nil =>
      show splitNl (joinNl [l]) = [l]
      exact splitNl_nlfree l (h l (by simp))
    | cons l2 ls2 =>
      show splitNl (l ++ '\n' :: joinNl (l2 :: ls2)) = l :: l2 :: ls2
      rw [splitNl_line l _ (h l (by simp))]
      rw [ih (by simp) (fun x hx c hc => h x (by simp [hx]) c hc)]

/-- Trimming is the identity on whitespace-free strings. -/
theorem trimStr_id (s : String) (h : ∀ c ∈ s.data, c.isWhitespace = false) :
    trimStr s = s := by
  rw [trimStr, trimChars_id s.data h]

/-- The trimmed line list of a rendered buffer is the buffer's lines,
trimmed, provided no buffer line contains a newline. -/
theorem contentLines_render (ls : List String) (hne : ls ≠ [])
    (h : ∀ l ∈ ls, ∀ c ∈ l.data, c ≠ '\n') :
    contentLines (String.mk (joinNl (ls.map String.data))) = ls.map trimStr := by
  rw [contentLines]
  show (splitNl (joinNl (ls.map String.data))).map _ = _
  rw [splitNl_joinNl (ls.map String.data) (by simpa using hne) ?hnl]
  case hnl =>
    intro l hl c hc
    rcases List.mem_map.mp hl with ⟨s, hs, rfl⟩
    exact h s hs c hc
  rw [List.map_map]
  rfl

/-! ## Parser progress and totality -/

/-- The field loop never grows the remaining input. -/
theorem parseFields_length {E : Type} (upd : Option ℤ → Option String → E → E) :
    ∀ (e : E) (l : List String), (parseFields upd e l).2.length ≤ l.length
  | _, [] => by simp [parseFields]
  | e, [a] => by
    rw [parseFields]
    split <;> simp
  | e, a :: v :: r => by
    rw [parseFields]
    split
    · simp
    · calc (parseFields upd (upd (jsParseInt a) (some v) e) r).2.length
          ≤ r.length := parseFields_length upd _ r
        _ ≤ (a :: v :: r).length := by simp; omega

/-- The vertex loop never grows the remaining input. -/
theorem parseVLoop_length :
    ∀ (l : List String) (m : VMode) (pts : List (JNum × JNum)) (b : BState),
      (parseVLoop l m pts b).2.2.length ≤ l.length
  | [], m, pts, b => by
    rw [parseVLoop]
    cases m <;> simp [vFinish]
  | [a], m, pts, b => by
    rw [parseVLoop]
    rcases h : vStep (jsParseInt a) none m pts b with p | p
    · rcases p with ⟨m2, pts2, b2⟩
      cases m2 <;> simp [vFinish]
    · rcases p with ⟨pts2, b2⟩
      simp
  | a :: v :: r, m, pts, b => by
    rw [parseVLoop]
    rcases h : vStep (jsParseInt a) (some v) m pts b with p | p
    · rcases p with ⟨m2, pts2, b2⟩
      calc (parseVLoop r m2 pts2 b2).2.2.length ≤ r.length :=
            parseVLoop_length r m2 pts2 b2
        _ ≤ (a :: v :: r).length := by simp; omega
    · rcases p with ⟨pts2, b2⟩
      simp
      omega

/-- The entity dispatch never grows the remaining input. -/
theorem scanDispatch_length (s1 : PState) (c : Option ℤ) (v : Option String)
    (r : List String) (p : PState × List String)
    (h : scanDispatch s1 c v r = Except.ok p) : p.2.length ≤ r.length := by
  rw [scanDispatch] at h
  split at h
  · split at h
    · simp at h
      subst h
      exact parseFields_length updLineF lineInit r
    · split at h
      · simp at h
        subst h
        exact parseFields_length updCircleF circleInit r
      · split at h
        · split at h
          · exact absurd h (by simp)
          · simp at h
            subst h
            exact parseFields_length updTextF textInit r
        · split at h
          · simp at h
            subst h
            exact le_trans
              (parseVLoop_length (parseFields updPolyF polyInit r).2
                VMode.seek [] s1.b)
              (parseFields_length updPolyF polyInit r)
          · simp at h
            subst h
            simp
  · simp at h
    subst h
    simp

/-- One main-loop step never grows the remaining input. -/
theorem scanStep_length (s : PState) (c : Option ℤ) (v : Option String)
    (r : List String) (p : PState × List String)
    (h : scanStep s c v r = Except.ok p) : p.2.length ≤ r.length := by
  rw [scanStep.eq_def] at h
  split at h
  · rcases r with _ | ⟨a2, _ | ⟨v2, r2⟩⟩
    · simp at h
      subst h
      simp
    · simp at h
      subst h
      simp
    · split at h
      · simp_all
      · simp_all
      · rename_i a2b v2b r2b heq
        obtain ⟨e1, e2, e3⟩ : a2 = a2b ∧ v2 = v2b ∧ r2 = r2b := by
          injection heq with e1 rest
          injection rest with e2 e3
          exact ⟨e1, e2, e3⟩
        subst e1
        subst e2
        subst e3
        split at h <;> (simp at h; subst h; simp) <;> omega
  · exact scanDispatch_length _ _ _ _ _ h

/-- Fuel `lines.length + 1` always suffices: every loop strictly advances
the token index. -/
theorem scanMain_isSome : ∀ (f : ℕ) (s : PState) (l : List String),
    l.length < f → (scanMain f s l).isSome = true := by
  intro f
  induction f with
  | zero =>
    intro s l h
    omega
  | succ f ih =>
    intro s l h
    rcases l with _ | ⟨a, _ | ⟨v, r⟩⟩
    · simp [scanMain]
    · rw [scanMain]
      rcases hstep : scanStep s (jsParseInt a) none [] with e | p
      · simp
      · simp only []
        apply ih
        have hlen := scanStep_length s (jsParseInt a) none [] p hstep
        simp only [List.length_nil] at hlen
        simp only [List.length_cons, List.length_nil] at h
        omega
    · rw [scanMain]
      rcases hstep : scanStep s (jsParseInt a) (some v) r with e | p
      · simp
      · simp only []
        apply ih
        have hlen := scanStep_length s (jsParseInt a) (some v) r p hstep
        simp only [List.length_cons] at h
        omega

/-- Raising the fuel preserves an already-delivered result. -/
theorem scanMain_mono : ∀ (f g : ℕ) (s : PState) (l : List String)
    (o : Except Unit PState), scanMain f s l = some o → f ≤ g →
    scanMain g s l = some o := by
  intro f
  induction f with
  | zero =>
    intro g s l o h
    simp [scanMain] at h
  | succ f ih =>
    intro g s l o h hfg
    obtain ⟨g', rfl⟩ : ∃ g', g = g' + 1 := ⟨g - 1, by omega⟩
    rcases l with _ | ⟨a, _ | ⟨v, r⟩⟩
    · simpa [scanMain] using h
    · rw [scanMain] at h ⊢
      rcases hstep : scanStep s (jsParseInt a) none [] with e | p <;>
        rw [hstep] at h
      · exact h
      · exact ih g' p.1 p.2 o h (by omega)
    · rw [scanMain] at h ⊢
      rcases hstep : scanStep s (jsParseInt a) (some v) r with e | p <;>
        rw [hstep] at h
      · exact h
      · exact ih g' p.1 p.2 o h (by omega)

/-! ## Bounds-extension invariant -/

theorem BExt_refl (b : BState) : BExt b b :=
  ⟨[], by simp, fun _ => rfl⟩

theorem BExt_trans {a b c : BState} (h1 : BExt a b) (h2 : BExt b c) :
    BExt a c := by
  obtain ⟨d1, hd1, hi1⟩ := h1
  obtain ⟨d2, hd2, hi2⟩ := h2
  refine ⟨d1 ++ d2, by rw [hd2, hd1, List.append_assoc], ?_⟩
  intro h
  have h1e : d1 = [] := by
    rcases List.append_eq_nil.mp h with ⟨e1, _⟩
    exact e1
  have h2e : d2 = [] := by
    rcases List.append_eq_nil.mp h with ⟨_, e2⟩
    exact e2
  rw [hi2 h2e, hi1 h1e]

theorem BExt_updB (b : BState) (x y : JNum) : BExt b (updB b x y) := by
  refine ⟨[(x, y)], rfl, ?_⟩
  intro h
  exact absurd h (by simp)

/-- The vertex-loop step only ever extends the bounds state. -/
theorem vStep_bext (c : Option ℤ) (v : Option String) (m : VMode)
    (pts : List (JNum × JNum)) (b : BState) :
    (match vStep c v m pts b with
     | Sum.inl (_, _, b2) => BExt b b2
     | Sum.inr (_, b2) => BExt b b2) := by
  cases m with
  | seek =>
    rw [vStep]
    split_ifs <;> exact BExt_refl b
  | inV vx vy =>
    rw [vStep]
    split_ifs <;> first
      | exact BExt_updB b vx vy
      | exact BExt_refl b

/-- The vertex loop only ever extends the bounds state. -/
theorem parseVLoop_bext :
    ∀ (l : List String) (m : VMode) (pts : List (JNum × JNum)) (b : BState),
      BExt b (parseVLoop l m pts b).2.1
  | [], m, pts, b => by
    rw [parseVLoop]
    cases m with
    | seek => exact BExt_refl b
    | inV vx vy => exact BExt_updB b vx vy
  | [a], m, pts, b => by
    rw [parseVLoop]
    have hv := vStep_bext (jsParseInt a) none m pts b
    rcases hs : vStep (jsParseInt a) none m pts b with ⟨m2, pts2, b2⟩ | ⟨pts2, b2⟩ <;>
      rw [hs] at hv
    · cases m2 with
      | seek => exact hv
      | inV vx vy => exact BExt_trans hv (BExt_updB b2 vx vy)
    · exact hv
  | a :: v :: r, m, pts, b => by
    rw [parseVLoop]
    have hv := vStep_bext (jsParseInt a) (some v) m pts b
    rcases hs : vStep (jsParseInt a) (some v) m pts b with ⟨m2, pts2, b2⟩ | ⟨pts2, b2⟩ <;>
      rw [hs] at hv
    · exact BExt_trans hv (parseVLoop_bext r m2 pts2 b2)
    · exact hv

/-- The ENDSEC flag reset does not touch the bounds. -/
theorem stepState_b (s : PState) (c : Option ℤ) (v : Option String) :
    (stepState s c v).b = s.b := by
  rw [stepState]
  split <;> rfl

/-- The entity dispatch only ever extends the bounds state. -/
theorem scanDispatch_bext (s1 : PState) (c : Option ℤ) (v : Option String)
    (r : List String) (p : PState × List String)
    (h : scanDispatch s1 c v r = Except.ok p) : BExt s1.b p.1.b := by
  rw [scanDispatch] at h
  split at h
  · split at h
    · simp at h
      subst h
      exact BExt_trans (BExt_updB _ _ _) (BExt_updB _ _ _)
    · split at h
      · simp at h
        subst h
        exact BExt_trans (BExt_updB _ _ _) (BExt_updB _ _ _)
      · split at h
        · split at h
          · exact absurd h (by simp)
          · simp at h
            subst h
            exact BExt_trans (BExt_updB _ _ _) (BExt_updB _ _ _)
        · split at h
          · simp at h
            subst h
            exact parseVLoop_bext _ VMode.seek [] s1.b
          · simp at h
            subst h
            exact BExt_refl s1.b
  · simp at h
    subst h
    exact BExt_refl s1.b

/-- One main-loop step only ever extends the bounds state. -/
theorem scanStep_bext (s : PState) (c : Option ℤ) (v : Option String)
    (r : List String) (p : PState × List String)
    (h : scanStep s c v r = Except.ok p) : BExt s.b p.1.b := by
  rw [scanStep.eq_def] at h
  split at h
  · rcases r with _ | ⟨a2, _ | ⟨v2, r2⟩⟩
    · simp at h
      subst h
      exact BExt_refl s.b
    · simp at h
      subst h
      exact BExt_refl s.b
    · split at h
      · simp_all
      · simp_all
      · rename_i a2b v2b r2b heq
        split at h <;> (simp at h; subst h; exact BExt_refl s.b)
  · have := scanDispatch_bext (stepState s c v) c v r p h
    rwa [stepState_b] at this

/-- A completed scan only ever extends the initial bounds state. -/
theorem scanMain_bext : ∀ (f : ℕ) (s : PState) (l : List String)
    (st : PState), scanMain f s l = some (Except.ok st) → BExt s.b st.b := by
  intro f
  induction f with
  | zero =>
    intro s l st h
    simp [scanMain] at h
  | succ f ih =>
    intro s l st h
    rcases l with _ | ⟨a, _ | ⟨v, r⟩⟩
    · simp [scanMain] at h
      subst h
      exact BExt_refl _
    · rw [scanMain] at h
      rcases hstep : scanStep s (jsParseInt a) none [] with e | p <;>
        rw [hstep] at h
      · simp at h
      · exact BExt_trans (scanStep_bext s _ _ _ p hstep) (ih p.1 p.2 st h)
    · rw [scanMain] at h
      rcases hstep : scanStep s (jsParseInt a) (some v) r with e | p <;>
        rw [hstep] at h
      · simp at h
      · exact BExt_trans (scanStep_bext s _ _ _ p hstep) (ih p.1 p.2 st h)

/-! ## Theorems for claim C7 -/

/-- C7: when no recognized entity contributes any coordinate (the ghost
`updateBounds` log of the completed scan is empty), the returned bounds are
exactly the fallback square `(0,0)-(100,100)`. -/
theorem parseDxf_bounds_fallback (content : String) (st : PState)
    (h : parseDxfFull content = some (Except.ok st))
    (hc : st.b.contribs = []) :
    parseDxf content = some (Except.ok
      (ParseResult.mk st.entities ⟨some 0, some 0, some 100, some 100⟩)) := by
  have hb : BExt initP.b st.b := scanMain_bext _ initP _ st h
  obtain ⟨d, hd, himp⟩ := hb
  have hdnil : d = [] := by
    rw [hc] at hd
    have h0 : initP.b.contribs = [] := rfl
    rw [h0] at hd
    simpa using hd.symm
  have hbi : st.b = initP.b := himp hdnil
  rw [parseDxfFull] at h
  rw [parseDxf, parseLines, h]
  simp [Except.map]
  rw [hbi]
  rfl

set_option maxRecDepth 20000 in
/-- C7 witness: the fallback theorem at the rendered output of a writer with
no entities appended. -/
theorem parseDxf_bounds_fallback_witness :
    parseDxfFull (SimpleDxfWriter.new.toString).2 =
        some (Except.ok ⟨false, [], initB⟩) ∧
      (⟨false, [], initB⟩ : PState).b.contribs = [] ∧
      parseDxf (SimpleDxfWriter.new.toString).2 = some (Except.ok
        (ParseResult.mk [] ⟨some 0, some 0, some 100, some 100⟩)) := by
  have h1 : parseDxfFull (SimpleDxfWriter.new.toString).2 =
      some (Except.ok ⟨false, [], initB⟩) := by decide
  exact ⟨h1, rfl, parseDxf_bounds_fallback _ _ h1 rfl⟩

/-! ## Theorems for claim C10 -/

set_option maxRecDepth 8000 in
/-- C10 counterexample: on the truncated input whose TEXT record ends at a
code-1 line with no value line, the parser raises a TypeError
(`text.text!.length` on `undefined`) instead of returning a result. -/
theorem parseDxf_throws_cex :
    parseDxf "0\nSECTION\n2\nENTITIES\n0\nTEXT\n1" =
      some (Except.error ()) := by
  decide

set_option maxRecDepth 8000 in
/-- C10 (amended): the parser always terminates — fuel `lines.length + 1`
suffices because every loop strictly advances the token index — and
malformed numeric tokens become `NaN` coordinates in a normally returned
result; but it can raise a TypeError (see the counterexample), so it does
not return a result on every input. -/
theorem parseDxf_total_amended :
    (∀ (f : ℕ) (s : PState) (l : List String), l.length < f →
      (scanMain f s l).isSome = true) ∧
    (∀ content : String, (parseDxf content).isSome = true) ∧
    parseDxf "0\nSECTION\n2\nENTITIES\n0\nLINE\n10\nabc" =
      some (Except.ok (ParseResult.mk
        [{ type := EType.LINE, layer := some "0", color := some 7,
           points := some [(none, some 0), (some 0, some 0)],
           center := none, radius := none, text := none, height := none,
           x := none, y := none, closed := none }]
        ⟨some 0, some 0, some 0, some 0⟩)) := by
  refine ⟨scanMain_isSome, ?_, by decide⟩
  intro content
  rw [parseDxf, parseLines]
  have hs := scanMain_isSome ((contentLines content).length + 1) initP
    (contentLines content) (by omega)
  rcases ho : scanMain ((contentLines content).length + 1) initP
      (contentLines content) with _ | o
  · rw [ho] at hs
    simp at hs
  · rfl

/-- C10 witness: the totality statement applied at concrete fuel, state and
input, with its hypothesis discharged. -/
theorem parseDxf_total_witness :
    ([("0" : String), "SECTION"].length < 3) ∧
      (scanMain 3 initP [("0" : String), "SECTION"]).isSome = true :=
  ⟨by decide, parseDxf_total_amended.1 3 initP ["0", "SECTION"] (by decide)⟩

/-! ## Theorems for claim C8 -/

/-- Helper: non-code-0 pairs are consumed with no state change (each main
loop iteration reads one pair and none of the SECTION/ENDSEC/entity
branches fire). -/
theorem scanMain_skipPairs :
    ∀ (ps : List (String × String)) (f : ℕ) (s : PState) (rest : List String),
      (∀ p ∈ ps, jsParseInt p.1 ≠ some 0) →
      scanMain (f + ps.length) s (ps.flatMap (fun p => [p.1, p.2]) ++ rest) =
        scanMain f s rest := by
  intro ps
  induction ps with
  | nil =>
    intro f s rest _
    rfl
  | cons p ps ih =>
    intro f s rest hp
    have hc : jsParseInt p.1 ≠ some 0 := hp p (by simp)
    have hflat : ((p :: ps).flatMap (fun p => [p.1, p.2])) =
        p.1 :: p.2 :: ps.flatMap (fun p => [p.1, p.2]) := rfl
    rw [hflat]
    have hfuel : f + (p :: ps).length = (f + ps.length) + 1 := by
      simp
      omega
    rw [hfuel]
    show (match scanStep s (jsParseInt p.1) (some p.2)
        (ps.flatMap (fun p => [p.1, p.2]) ++ rest) with
      | Except.error e => some (Except.error e)
      | Except.ok q => scanMain (f + ps.length) q.1 q.2) = scanMain f s rest
    have hstep : scanStep s (jsParseInt p.1) (some p.2)
        (ps.flatMap (fun p => [p.1, p.2]) ++ rest) =
        Except.ok (s, ps.flatMap (fun p => [p.1, p.2]) ++ rest) := by
      rw [scanStep.eq_def]
      rw [if_neg (fun hh => hc hh.1)]
      rw [stepState, if_neg (fun hh => hc hh.1)]
      rw [scanDispatch]
      rw [if_neg (fun hh => hc hh.2)]
    rw [hstep]
    exact ih f s rest (fun q hq => hp q (by simp [hq]))

/-- C8: an unrecognized record inside the entities section — a code-0 pair
whose value is none of the four entity types (and not a section marker),
followed by any run of non-code-0 field pairs — is skipped entirely: the
scan of the document with the record equals the scan without it, so no
entity is produced for it, every other entity is parsed identically, and
the parse does not fail because of it. -/
theorem unknown_entity_skipped (f : ℕ) (s : PState) (t : String)
    (ps : List (String × String)) (rest : List String)
    (hs : s.inEntities = true)
    (ht : t ≠ "LINE" ∧ t ≠ "CIRCLE" ∧ t ≠ "TEXT" ∧ t ≠ "POLYLINE" ∧
      t ≠ "SECTION" ∧ t ≠ "ENDSEC")
    (hp : ∀ p ∈ ps, jsParseInt p.1 ≠ some 0) :
    scanMain (f + (1 + ps.length)) s (unkBlock t ps ++ rest) =
      scanMain f s rest := by
  obtain ⟨h1, h2, h3, h4, h5, h6⟩ := ht
  have hfuel : f + (1 + ps.length) = (f + ps.length) + 1 := by omega
  rw [hfuel, unkBlock]
  show (match scanStep s (jsParseInt "0") (some t)
      (ps.flatMap (fun p => [p.1, p.2]) ++ rest) with
    | Except.error e => some (Except.error e)
    | Except.ok q => scanMain (f + ps.length) q.1 q.2) = scanMain f s rest
  have hstep : scanStep s (jsParseInt "0") (some t)
      (ps.flatMap (fun p => [p.1, p.2]) ++ rest) =
      Except.ok (s, ps.flatMap (fun p => [p.1, p.2]) ++ rest) := by
    rw [scanStep.eq_def]
    rw [if_neg (fun hh => h5 (by simpa using hh.2))]
    have hss : stepState s (jsParseInt "0") (some t) = s := by
      rw [stepState, if_neg (fun hh => h6 (by simpa using hh.2))]
    rw [hss, scanDispatch]
    rw [if_pos ⟨hs, by decide⟩]
    rw [if_neg (fun hh => h1 (by simpa using hh))]
    rw [if_neg (fun hh => h2 (by simpa using hh))]
    rw [if_neg (fun hh => h3 (by simpa using hh))]
    rw [if_neg (fun hh => h4 (by simpa using hh))]
  rw [hstep]
  exact scanMain_skipPairs ps f s rest hp

/-- C8 witness: an `ARC` record with one `(40, 5)` field pair, inserted
before the end-of-file pair, is skipped. -/
theorem unknown_entity_skipped_witness :
    (⟨true, [], initB⟩ : PState).inEntities = true ∧
      (("ARC" : String) ≠ "LINE" ∧ ("ARC" : String) ≠ "CIRCLE" ∧
        ("ARC" : String) ≠ "TEXT" ∧ ("ARC" : String) ≠ "POLYLINE" ∧
        ("ARC" : String) ≠ "SECTION" ∧ ("ARC" : String) ≠ "ENDSEC") ∧
      (∀ p ∈ [(("40" : String), ("5" : String))], jsParseInt p.1 ≠ some 0) ∧
      scanMain (1 + (1 + 1)) ⟨true, [], initB⟩
          (unkBlock "ARC" [("40", "5")] ++ ["0", "EOF"]) =
        scanMain 1 ⟨true, [], initB⟩ ["0", "EOF"] :=
  ⟨rfl, by decide, by decide,
    unknown_entity_skipped 1 ⟨true, [], initB⟩ "ARC" [("40", "5")]
      ["0", "EOF"] rfl (by decide) (by decide)⟩

/-! ## Concrete group-code parses -/

theorem jsc_0 : jsParseInt "0" = some 0 := by decide
theorem jsc_1 : jsParseInt "1" = some 1 := by decide
theorem jsc_2 : jsParseInt "2" = some 2 := by decide
theorem jsc_8 : jsParseInt "8" = some 8 := by decide
theorem jsc_10 : jsParseInt "10" = some 10 := by decide
theorem jsc_11 : jsParseInt "11" = some 11 := by decide
theorem jsc_20 : jsParseInt "20" = some 20 := by decide
theorem jsc_21 : jsParseInt "21" = some 21 := by decide
theorem jsc_30 : jsParseInt "30" = some 30 := by decide
theorem jsc_31 : jsParseInt "31" = some 31 := by decide
theorem jsc_40 : jsParseInt "40" = some 40 := by decide
theorem jsc_50 : jsParseInt "50" = some 50 := by decide
theorem jsc_62 : jsParseInt "62" = some 62 := by decide
theorem jsc_66 : jsParseInt "66" = some 66 := by decide
theorem jsc_70 : jsParseInt "70" = some 70 := by decide

/-- Trim stability of the serializers. -/
theorem trimStr_fmt3 (q : ℚ) : trimStr (fmt3 q) = fmt3 q :=
  trimStr_id _ (fun c hc => (fmt3_clean q c hc).1)

theorem trimStr_intRepr (n : ℤ) : trimStr (intRepr n) = intRepr n :=
  trimStr_id _ (fun c hc => (intRepr_clean n c hc).1)

theorem trimStr_qRepr (q : ℚ) : trimStr (qRepr q) = qRepr q :=
  trimStr_id _ (fun c hc => (qRepr_clean q c hc).1)

/-! ## Field-loop evaluation -/

/-- One consumed field pair. -/
theorem parseFields_step {E : Type} (upd : Option ℤ → Option String → E → E)
    (e : E) (a v : String) (r : List String) (ha : jsParseInt a ≠ some 0) :
    parseFields upd e (a :: v :: r) =
      parseFields upd (upd (jsParseInt a) (some v) e) r := by
  rw [parseFields]
  rw [if_neg ha]

/-- The loop stops, without consuming, at a code-0 line. -/
theorem parseFields_stop {E : Type} (upd : Option ℤ → Option String → E → E)
    (e : E) (a : String) (r : List String) (ha : jsParseInt a = some 0) :
    parseFields upd e (a :: r) = (e, a :: r) := by
  cases r with
  | nil =>
    rw [parseFields]
    rw [if_pos ha]
  | cons v r2 =>
    rw [parseFields]
    rw [if_pos ha]

/-- LINE field-loop evaluation over the serialized field pairs. -/
theorem parseFields_line (e : LineF) (L : String) (x1 y1 x2 y2 : ℚ)
    (color : ℤ) (a : String) (r0 : List String) (ha : jsParseInt a = some 0) :
    parseFields updLineF e
        ("8" :: L :: "62" :: intRepr color :: "10" :: fmt3 x1 ::
          "20" :: fmt3 y1 :: "30" :: "0.0" :: "11" :: fmt3 x2 ::
          "21" :: fmt3 y2 :: "31" :: "0.0" :: a :: r0) =
      (⟨some L, some color, some (round3 x1), some (round3 y1),
        some (round3 x2), some (round3 y2)⟩, a :: r0) := by
  rw [parseFields_step _ _ _ _ _ (by rw [jsc_8]; decide),
    parseFields_step _ _ _ _ _ (by rw [jsc_62]; decide),
    parseFields_step _ _ _ _ _ (by rw [jsc_10]; decide),
    parseFields_step _ _ _ _ _ (by rw [jsc_20]; decide),
    parseFields_step _ _ _ _ _ (by rw [jsc_30]; decide),
    parseFields_step _ _ _ _ _ (by rw [jsc_11]; decide),
    parseFields_step _ _ _ _ _ (by rw [jsc_21]; decide),
    parseFields_step _ _ _ _ _ (by rw [jsc_31]; decide),
    parseFields_stop _ _ _ _ ha]
  simp only [updLineF, jsc_8, jsc_62, jsc_10, jsc_20, jsc_30, jsc_11, jsc_21,
    jsc_31, jsParseIntOpt, jsParseFloatOpt, jsParseInt_intRepr,
    jsParseFloat_fmt3]
  norm_num

/-- CIRCLE field-loop evaluation over the serialized field pairs. -/
theorem parseFields_circle (e : CircleF) (L : String) (cx cy r : ℚ)
    (color : ℤ) (a : String) (r0 : List String) (ha : jsParseInt a = some 0) :
    parseFields updCircleF e
        ("8" :: L :: "62" :: intRepr color :: "10" :: fmt3 cx ::
          "20" :: fmt3 cy :: "30" :: "0.0" :: "40" :: fmt3 r :: a :: r0) =
      (⟨some L, some color, some (round3 cx), some (round3 cy),
        some (round3 r)⟩, a :: r0) := by
  rw [parseFields_step _ _ _ _ _ (by rw [jsc_8]; decide),
    parseFields_step _ _ _ _ _ (by rw [jsc_62]; decide),
    parseFields_step _ _ _ _ _ (by rw [jsc_10]; decide),
    parseFields_step _ _ _ _ _ (by rw [jsc_20]; decide),
    parseFields_step _ _ _ _ _ (by rw [jsc_30]; decide),
    parseFields_step _ _ _ _ _ (by rw [jsc_40]; decide),
    parseFields_stop _ _ _ _ ha]
  simp only [updCircleF, jsc_8, jsc_62, jsc_10, jsc_20, jsc_30, jsc_40,
    jsParseIntOpt, jsParseFloatOpt, jsParseInt_intRepr, jsParseFloat_fmt3]
  norm_num

/-- TEXT field-loop evaluation over the serialized field pairs. -/
theorem parseFields_text (e : TextF) (L t : String) (x y h rot : ℚ)
    (a : String) (r0 : List String) (ha : jsParseInt a = some 0)
    (he : e.color = some 7) :
    parseFields updTextF e
        ("8" :: L :: "10" :: fmt3 x :: "20" :: fmt3 y :: "30" :: "0.0" ::
          "40" :: qRepr h :: "50" :: qRepr rot :: "1" :: t :: a :: r0) =
      (⟨some L, some 7, some (round3 x), some (round3 y),
        jsParseFloat (qRepr h), some t⟩, a :: r0) := by
  rw [parseFields_step _ _ _ _ _ (by rw [jsc_8]; decide),
    parseFields_step _ _ _ _ _ (by rw [jsc_10]; decide),
    parseFields_step _ _ _ _ _ (by rw [jsc_20]; decide),
    parseFields_step _ _ _ _ _ (by rw [jsc_30]; decide),
    parseFields_step _ _ _ _ _ (by rw [jsc_40]; decide),
    parseFields_step _ _ _ _ _ (by rw [jsc_50]; decide),
    parseFields_step _ _ _ _ _ (by rw [jsc_1]; decide),
    parseFields_stop _ _ _ _ ha]
  simp only [updTextF, jsc_8, jsc_10, jsc_20, jsc_30, jsc_40, jsc_50, jsc_1,
    jsParseFloatOpt, jsParseFloat_fmt3]
  rw [← he]
  norm_num

/-- POLYLINE header field-loop evaluation. -/
theorem parseFields_poly (e : PolyF) (L : String) (color : ℤ) (closed : Bool)
    (a : String) (r0 : List String) (ha : jsParseInt a = some 0)
    (he : e.closed = false) :
    parseFields updPolyF e
        ("8" :: L :: "62" :: intRepr color :: "66" :: "1" :: "10" :: "0.0" ::
          "20" :: "0.0" :: "30" :: "0.0" :: "70" ::
          (if closed then "1" else "0") :: a :: r0) =
      (⟨some L, some color, closed⟩, a :: r0) := by
  rw [parseFields_step _ _ _ _ _ (by rw [jsc_8]; decide),
    parseFields_step _ _ _ _ _ (by rw [jsc_62]; decide),
    parseFields_step _ _ _ _ _ (by rw [jsc_66]; decide),
    parseFields_step _ _ _ _ _ (by rw [jsc_10]; decide),
    parseFields_step _ _ _ _ _ (by rw [jsc_20]; decide),
    parseFields_step _ _ _ _ _ (by rw [jsc_30]; decide),
    parseFields_step _ _ _ _ _ (by rw [jsc_70]; decide),
    parseFields_stop _ _ _ _ ha]
  simp only [updPolyF, jsc_8, jsc_62, jsc_66, jsc_10, jsc_20, jsc_30, jsc_70,
    jsParseIntOpt, jsParseInt_intRepr]
  cases closed with
  | false =>
    have ho : oddParse (some "0") = false := by decide
    simp [ho, he]
  | true =>
    have ho : oddParse (some "1") = true := by decide
    simp [ho]


/-- The four field pairs of one VERTEX record load its rounded coordinates. -/
theorem vfields (L : String) (px py : ℚ) (rest : List String) (vx vy : JNum)
    (acc : List (JNum × JNum)) (b : BState) :
    parseVLoop ("8" :: L :: "10" :: fmt3 px :: "20" :: fmt3 py ::
        "30" :: "0.0" :: rest) (VMode.inV vx vy) acc b =
      parseVLoop rest (VMode.inV (some (round3 px)) (some (round3 py))) acc b := by
  have h1 : parseVLoop ("8" :: L :: "10" :: fmt3 px :: "20" :: fmt3 py ::
        "30" :: "0.0" :: rest) (VMode.inV vx vy) acc b =
      parseVLoop rest
        (VMode.inV (jsParseFloatOpt (some (fmt3 px)))
          (jsParseFloatOpt (some (fmt3 py)))) acc b := rfl
  rw [h1]
  have hx : jsParseFloatOpt (some (fmt3 px)) = some (round3 px) :=
    jsParseFloat_fmt3 px
  have hy : jsParseFloatOpt (some (fmt3 py)) = some (round3 py) :=
    jsParseFloat_fmt3 py
  rw [hx, hy]

/-- Vertex-loop walk with a pending vertex: each remaining VERTEX record's
code-0 header pushes the pending vertex, the SEQEND header pushes the last. -/
theorem vwalkAux (L : String) : ∀ (pts : List (ℚ × ℚ)) (vx vy : JNum)
    (acc : List (JNum × JNum)) (b : BState) (r0 : List String), ∃ b2,
    parseVLoop (pts.flatMap (fun p => vertexLines p L) ++
        "0" :: "SEQEND" :: r0) (VMode.inV vx vy) acc b =
      (acc ++ (vx, vy) :: pts.map rdPt, b2, r0) := by
  intro pts
  induction pts with
  | nil =>
    intro vx vy acc b r0
    refine ⟨updB b vx vy, ?_⟩
    show parseVLoop ("0" :: "SEQEND" :: r0) (VMode.inV vx vy) acc b = _
    rw [parseVLoop]
    rw [jsc_0]
    rw [vStep]
    rw [if_pos rfl, if_pos rfl]
    simp
  | cons p ps ih =>
    intro vx vy acc b r0
    have hsplit : ((p :: ps).flatMap (fun q => vertexLines q L) ++
        "0" :: "SEQEND" :: r0) =
        "0" :: "VERTEX" :: "8" :: L :: "10" :: fmt3 p.1 :: "20" :: fmt3 p.2 ::
          "30" :: "0.0" ::
          (ps.flatMap (fun q => vertexLines q L) ++ "0" :: "SEQEND" :: r0) := by
      simp [vertexLines]
    rw [hsplit]
    rw [parseVLoop]
    rw [jsc_0]
    rw [vStep]
    rw [if_pos rfl]
    rw [if_neg (by decide), if_pos rfl]
    simp only []
    rw [vfields]
    obtain ⟨b2, hb2⟩ := ih (some (round3 p.1)) (some (round3 p.2))
      (acc ++ [(vx, vy)]) (updB b vx vy) r0
    refine ⟨b2, ?_⟩
    rw [hb2]
    simp [rdPt]

/-- The whole vertex loop on a serialized vertex block. -/
theorem vwalk (L : String) (pts : List (ℚ × ℚ)) (b : BState)
    (r0 : List String) : ∃ b2,
    parseVLoop (pts.flatMap (fun p => vertexLines p L) ++
        "0" :: "SEQEND" :: r0) VMode.seek [] b =
      (pts.map rdPt, b2, r0) := by
  cases pts with
  | nil =>
    refine ⟨b, ?_⟩
    show parseVLoop ("0" :: "SEQEND" :: r0) VMode.seek [] b = _
    rw [parseVLoop]
    rw [jsc_0]
    rw [vStep]
    rw [if_pos rfl]
    simp
  | cons p ps =>
    have hsplit : ((p :: ps).flatMap (fun q => vertexLines q L) ++
        "0" :: "SEQEND" :: r0) =
        "0" :: "VERTEX" :: "8" :: L :: "10" :: fmt3 p.1 :: "20" :: fmt3 p.2 ::
          "30" :: "0.0" ::
          (ps.flatMap (fun q => vertexLines q L) ++ "0" :: "SEQEND" :: r0) := by
      simp [vertexLines]
    rw [hsplit]
    rw [parseVLoop]
    rw [jsc_0]
    rw [vStep]
    rw [if_neg (by decide), if_pos rfl]
    simp only []
    rw [vfields]
    obtain ⟨b2, hb2⟩ := vwalkAux L ps (some (round3 p.1)) (some (round3 p.2))
      [] b r0
    refine ⟨b2, ?_⟩
    rw [hb2]
    simp [rdPt]

/-- One serialized LINE record advances the scan by one entity. -/
theorem scan_line (f : ℕ) (s : PState) (hs : s.inEntities = true)
    (x1 y1 x2 y2 : ℚ) (L : String) (color : ℤ) (r0 : List String) :
    scanMain (f + 1) s
        ("0" :: "LINE" :: "8" :: L :: "62" :: intRepr color ::
          "10" :: fmt3 x1 :: "20" :: fmt3 y1 :: "30" :: "0.0" ::
          "11" :: fmt3 x2 :: "21" :: fmt3 y2 :: "31" :: "0.0" :: "0" :: r0) =
      scanMain f (pushLine s ⟨some L, some color, some (round3 x1),
        some (round3 y1), some (round3 x2), some (round3 y2)⟩) ("0" :: r0) := by
  rw [scanMain]
  rw [jsc_0]
  rw [scanStep.eq_def]
  rw [if_neg (by decide)]
  rw [stepState, if_neg (by decide)]
  rw [scanDispatch]
  rw [if_pos ⟨hs, rfl⟩]
  rw [if_pos rfl]
  rw [parseFields_line lineInit L x1 y1 x2 y2 color "0" r0 jsc_0]

/-- One serialized CIRCLE record advances the scan by one entity. -/
theorem scan_circle (f : ℕ) (s : PState) (hs : s.inEntities = true)
    (cx cy r : ℚ) (L : String) (color : ℤ) (r0 : List String) :
    scanMain (f + 1) s
        ("0" :: "CIRCLE" :: "8" :: L :: "62" :: intRepr color ::
          "10" :: fmt3 cx :: "20" :: fmt3 cy :: "30" :: "0.0" ::
          "40" :: fmt3 r :: "0" :: r0) =
      scanMain f (pushCircle s ⟨some L, some color, some (round3 cx),
        some (round3 cy), some (round3 r)⟩) ("0" :: r0) := by
  rw [scanMain]
  rw [jsc_0]
  rw [scanStep.eq_def]
  rw [if_neg (by decide)]
  rw [stepState, if_neg (by decide)]
  rw [scanDispatch]
  rw [if_pos ⟨hs, rfl⟩]
  rw [if_neg (by decide), if_pos rfl]
  rw [parseFields_circle circleInit L cx cy r color "0" r0 jsc_0]

/-- One serialized TEXT record (newline-free text) advances the scan by one
entity. -/
theorem scan_text (f : ℕ) (s : PState) (hs : s.inEntities = true)
    (x y h rot : ℚ) (L t : String) (r0 : List String) :
    scanMain (f + 1) s
        ("0" :: "TEXT" :: "8" :: L :: "10" :: fmt3 x :: "20" :: fmt3 y ::
          "30" :: "0.0" :: "40" :: qRepr h :: "50" :: qRepr rot ::
          "1" :: t :: "0" :: r0) =
      scanMain f (pushTextE s ⟨some L, some 7, some (round3 x),
        some (round3 y), jsParseFloat (qRepr h), some t⟩ t) ("0" :: r0) := by
  rw [scanMain]
  rw [jsc_0]
  rw [scanStep.eq_def]
  rw [if_neg (by decide)]
  rw [stepState, if_neg (by decide)]
  rw [scanDispatch]
  rw [if_pos ⟨hs, rfl⟩]
  rw [if_neg (by decide), if_neg (by decide), if_pos rfl]
  rw [parseFields_text textInit L t x y h rot "0" r0 jsc_0 rfl]

/-- One serialized POLYLINE record (with its vertex block) advances the scan
by one entity. -/
theorem scan_poly (f : ℕ) (s : PState) (hs : s.inEntities = true)
    (pts : List (ℚ × ℚ)) (L : String) (color : ℤ) (closed : Bool)
    (r0 : List String) : ∃ b2,
    scanMain (f + 1) s
        ("0" :: "POLYLINE" :: "8" :: L :: "62" :: intRepr color ::
          "66" :: "1" :: "10" :: "0.0" :: "20" :: "0.0" :: "30" :: "0.0" ::
          "70" :: (if closed then "1" else "0") ::
          (pts.flatMap (fun p => vertexLines p L) ++
            "0" :: "SEQEND" :: "0" :: r0)) =
      scanMain f ⟨true, s.entities ++
        [mkPoly ⟨some L, some color, closed⟩ (pts.map rdPt)], b2⟩
        ("0" :: r0) := by
  obtain ⟨z, hz⟩ : ∃ z, (pts.flatMap (fun p => vertexLines p L) ++
      "0" :: "SEQEND" :: "0" :: r0) = "0" :: z := by
    cases pts with
    | nil => exact ⟨"SEQEND" :: "0" :: r0, rfl⟩
    | cons p ps =>
      refine ⟨"VERTEX" :: "8" :: L :: "10" :: fmt3 p.1 :: "20" :: fmt3 p.2 ::
        "30" :: "0.0" ::
        (ps.flatMap (fun q => vertexLines q L) ++ "0" :: "SEQEND" :: "0" :: r0),
        ?_⟩
      simp [vertexLines]
  obtain ⟨b2, hb2⟩ := vwalk L pts s.b ("0" :: r0)
  refine ⟨b2, ?_⟩
  rw [scanMain]
  rw [jsc_0]
  rw [scanStep.eq_def]
  rw [if_neg (by decide)]
  rw [stepState, if_neg (by decide)]
  rw [scanDispatch]
  rw [if_pos ⟨hs, rfl⟩]
  rw [if_neg (by decide), if_neg (by decide), if_neg (by decide), if_pos rfl]
  rw [hz]
  rw [parseFields_poly polyInit L color closed "0" z jsc_0 rfl]
  rw [← hz]
  simp only []
  rw [hb2]
  simp only []
  rw [pushPoly]
  rw [show ({ s with entities := s.entities ++
      [mkPoly ⟨some L, some color, closed⟩ (pts.map rdPt)], b := b2 } : PState)
    = ⟨s.inEntities, s.entities ++
      [mkPoly ⟨some L, some color, closed⟩ (pts.map rdPt)], b2⟩ from rfl]
  rw [hs]

/-- Trimming the serialized LINE record trims only the layer line. -/
theorem callTrim_line (x1 y1 x2 y2 : ℚ) (layer : String) (color : ℤ) :
    (callLines (DxfCall.line x1 y1 x2 y2 layer color)).map trimStr =
      "0" :: "LINE" :: "8" :: trimStr layer :: "62" :: intRepr color ::
        "10" :: fmt3 x1 :: "20" :: fmt3 y1 :: "30" :: "0.0" ::
        "11" :: fmt3 x2 :: "21" :: fmt3 y2 :: "31" :: "0.0" :: [] := by
  simp [callLines, lineLines, trimStr_fmt3, trimStr_intRepr]
  decide

/-- Trimming the serialized CIRCLE record trims only the layer line. -/
theorem callTrim_circle (cx cy r : ℚ) (layer : String) (color : ℤ) :
    (callLines (DxfCall.circle cx cy r layer color)).map trimStr =
      "0" :: "CIRCLE" :: "8" :: trimStr layer :: "62" :: intRepr color ::
        "10" :: fmt3 cx :: "20" :: fmt3 cy :: "30" :: "0.0" ::
        "40" :: fmt3 r :: [] := by
  simp [callLines, circleLines, trimStr_fmt3, trimStr_intRepr]
  decide

/-- Trimming the serialized TEXT record trims only the layer and text lines. -/
theorem callTrim_text (t : String) (x y h rot : ℚ) (layer : String) :
    (callLines (DxfCall.text t x y h layer rot)).map trimStr =
      "0" :: "TEXT" :: "8" :: trimStr layer :: "10" :: fmt3 x ::
        "20" :: fmt3 y :: "30" :: "0.0" :: "40" :: qRepr h ::
        "50" :: qRepr rot :: "1" :: trimStr t :: [] := by
  simp [callLines, textLines, trimStr_fmt3, trimStr_qRepr]
  decide

/-- Trimming the serialized POLYLINE record trims only the layer lines. -/
theorem callTrim_poly (pts : List (ℚ × ℚ)) (layer : String) (color : ℤ)
    (closed : Bool) :
    (callLines (DxfCall.polyline pts layer color closed)).map trimStr =
      "0" :: "POLYLINE" :: "8" :: trimStr layer :: "62" :: intRepr color ::
        "66" :: "1" :: "10" :: "0.0" :: "20" :: "0.0" :: "30" :: "0.0" ::
        "70" :: (if closed then "1" else "0") ::
        (pts.flatMap (fun p => vertexLines p (trimStr layer)) ++
          ["0", "SEQEND"]) := by
  have hv : ∀ p : ℚ × ℚ, (vertexLines p layer).map trimStr =
      vertexLines p (trimStr layer) := by
    intro p
    simp [vertexLines, trimStr_fmt3]
    decide
  have hc : trimStr (if closed then "1" else "0") =
      (if closed then "1" else "0") := by
    cases closed <;> decide
  simp [callLines, polylineLines, trimStr_fmt3, trimStr_intRepr,
    List.map_flatMap, hv, hc]
  decide

/-- One writer call's trimmed record block advances the scan by exactly the
expected entity. -/
theorem scan_call (f : ℕ) (s : PState) (hs : s.inEntities = true)
    (c : DxfCall) (r0 : List String) : ∃ b2,
    scanMain (f + 1) s ((callLines c).map trimStr ++ "0" :: r0) =
      scanMain f ⟨true, s.entities ++ [expEnt c], b2⟩ ("0" :: r0) := by
  cases c with
  | line x1 y1 x2 y2 layer color =>
    rw [callTrim_line]
    refine ⟨(pushLine s ⟨some (trimStr layer), some color, some (round3 x1),
      some (round3 y1), some (round3 x2), some (round3 y2)⟩).b, ?_⟩
    have h := scan_line f s hs x1 y1 x2 y2 (trimStr layer) color r0
    simp only [List.cons_append, List.nil_append] at h ⊢
    rw [h]
    rw [pushLine]
    rw [show ({ s with entities := s.entities ++ [mkLine ⟨some (trimStr layer),
      some color, some (round3 x1), some (round3 y1), some (round3 x2),
      some (round3 y2)⟩], b := updB (updB s.b (some (round3 x1))
        (some (round3 y1))) (some (round3 x2)) (some (round3 y2)) } : PState)
      = ⟨s.inEntities, s.entities ++ [mkLine ⟨some (trimStr layer), some color,
        some (round3 x1), some (round3 y1), some (round3 x2),
        some (round3 y2)⟩], updB (updB s.b (some (round3 x1))
        (some (round3 y1))) (some (round3 x2)) (some (round3 y2))⟩ from rfl]
    rw [hs]
    rfl
  | circle cx cy r layer color =>
    rw [callTrim_circle]
    refine ⟨(pushCircle s ⟨some (trimStr layer), some color, some (round3 cx),
      some (round3 cy), some (round3 r)⟩).b, ?_⟩
    have h := scan_circle f s hs cx cy r (trimStr layer) color r0
    simp only [List.cons_append, List.nil_append] at h ⊢
    rw [h]
    rw [pushCircle]
    rw [show ∀ e b, ({ s with entities := e, b := b } : PState)
      = ⟨s.inEntities, e, b⟩ from fun _ _ => rfl]
    rw [hs]
    rfl
  | text t x y h layer rot =>
    rw [callTrim_text]
    refine ⟨(pushTextE s ⟨some (trimStr layer), some 7, some (round3 x),
      some (round3 y), jsParseFloat (qRepr h), some (trimStr t)⟩
      (trimStr t)).b, ?_⟩
    have h2 := scan_text f s hs x y h rot (trimStr layer) (trimStr t) r0
    simp only [List.cons_append, List.nil_append] at h2 ⊢
    rw [h2]
    rw [pushTextE]
    rw [show ∀ e b, ({ s with entities := e, b := b } : PState)
      = ⟨s.inEntities, e, b⟩ from fun _ _ => rfl]
    rw [hs]
    rfl
  | polyline pts layer color closed =>
    rw [callTrim_poly]
    obtain ⟨b2, hb2⟩ := scan_poly f s hs pts (trimStr layer) color closed r0
    refine ⟨b2, ?_⟩
    simp only [List.cons_append, List.append_assoc, List.nil_append] at hb2 ⊢
    rw [hb2]
    rfl

/-- The header and footer lines are already trimmed. -/
theorem header_trim : dxfHeader.map trimStr = dxfHeader := by decide

theorem footer_trim : dxfFooter.map trimStr = dxfFooter := by decide

/-- Every trimmed call block starts with a code-0 line. -/
theorem callTrim_head (c : DxfCall) : ∃ w,
    (callLines c).map trimStr = "0" :: w := by
  cases c with
  | line x1 y1 x2 y2 layer color => exact ⟨_, callTrim_line x1 y1 x2 y2 layer color⟩
  | polyline pts layer color closed => exact ⟨_, callTrim_poly pts layer color closed⟩
  | circle cx cy r layer color => exact ⟨_, callTrim_circle cx cy r layer color⟩
  | text t x y h layer rot => exact ⟨_, callTrim_text t x y h rot layer⟩

/-- A trimmed call block sequence followed by the footer always starts with
a code-0 line. -/
theorem callsBlock_cons (cs : List DxfCall) : ∃ z,
    cs.flatMap (fun c => (callLines c).map trimStr) ++ dxfFooter =
      "0" :: z := by
  cases cs with
  | nil => exact ⟨["ENDSEC", "0", "EOF"], rfl⟩
  | cons c cs2 =>
    obtain ⟨w, hw⟩ := callTrim_head c
    refine ⟨w ++ (cs2.flatMap (fun c => (callLines c).map trimStr) ++
      dxfFooter), ?_⟩
    rw [List.flatMap_cons, List.append_assoc, hw]
    rfl

/-- Scanning all trimmed call blocks appends exactly the expected entities,
one fuel unit per call. -/
theorem scan_calls : ∀ (cs : List DxfCall) (f : ℕ) (s : PState),
    s.inEntities = true → ∃ b2,
    scanMain (f + cs.length) s
        (cs.flatMap (fun c => (callLines c).map trimStr) ++ dxfFooter) =
      scanMain f ⟨true, s.entities ++ cs.map expEnt, b2⟩ dxfFooter := by
  intro cs
  induction cs with
  | nil =>
    intro f s hs
    refine ⟨s.b, ?_⟩
    have hst : (⟨true, s.entities ++ List.map expEnt [], s.b⟩ : PState) = s := by
      rw [List.map_nil, List.append_nil, ← hs]
    rw [hst]
    rfl
  | cons c cs2 ih =>
    intro f s hs
    obtain ⟨z, hz⟩ := callsBlock_cons cs2
    obtain ⟨b2, hb2⟩ := scan_call (f + cs2.length) s hs c z
    rw [← hz] at hb2
    obtain ⟨b3, hb3⟩ := ih f ⟨true, s.entities ++ [expEnt c], b2⟩ rfl
    refine ⟨b3, ?_⟩
    rw [show f + (c :: cs2).length = (f + cs2.length) + 1 from by
      simp [List.length_cons]; omega]
    rw [List.flatMap_cons, List.append_assoc]
    rw [hb2, hb3]
    simp

/-- The fixed header block takes 41 scan iterations and ends with the
entities flag set. -/
theorem scan_header (f : ℕ) (rest : List String) :
    scanMain (f + 41) initP (dxfHeader ++ rest) =
      scanMain f ⟨true, [], initB⟩ rest := rfl

/-- The footer closes the scan normally. -/
theorem scan_footer (s : PState) :
    scanMain 3 s dxfFooter = some (Except.ok ⟨false, s.entities, s.b⟩) := rfl

/-- `applyCall` only appends to the buffer. -/
theorem applyCall_content (w : SimpleDxfWriter) (c : DxfCall) :
    (applyCall w c).content = w.content ++ callLines c := by
  cases c <;> rfl

/-- `applyCalls` appends all the call blocks. -/
theorem applyCalls_content : ∀ (cs : List DxfCall) (w : SimpleDxfWriter),
    (applyCalls w cs).content = w.content ++ cs.flatMap callLines := by
  intro cs
  induction cs with
  | nil => intro w; simp [applyCalls]
  | cons c cs2 ih =>
    intro w
    show (applyCalls (applyCall w c) cs2).content = _
    rw [ih, applyCall_content]
    simp

/-- No header line contains a newline. -/
theorem header_nlFree : ∀ l ∈ dxfHeader, ∀ c ∈ l.data, c ≠ '\n' := by decide

/-- No footer line contains a newline. -/
theorem footer_nlFree : ∀ l ∈ dxfFooter, ∀ c ∈ l.data, c ≠ '\n' := by decide

/-- A newline-free call produces newline-free buffer lines. -/
theorem callLines_nlFree (c : DxfCall) (h : callNlFree c) :
    ∀ l ∈ callLines c, ∀ ch ∈ l.data, ch ≠ '\n' := by
  cases c with
  | line x1 y1 x2 y2 layer color =>
    intro l hl
    simp only [callLines, lineLines, List.mem_cons, List.not_mem_nil,
      or_false] at hl
    rcases hl with rfl | rfl | rfl | rfl | rfl | rfl | rfl | rfl | rfl | rfl |
      rfl | rfl | rfl | rfl | rfl | rfl | rfl | rfl
    all_goals first
      | decide
      | exact h
      | exact fun ch hch => (intRepr_clean color ch hch).2
      | exact fun ch hch => (fmt3_clean _ ch hch).2
  | circle cx cy r layer color =>
    intro l hl
    simp only [callLines, circleLines, List.mem_cons, List.not_mem_nil,
      or_false] at hl
    rcases hl with rfl | rfl | rfl | rfl | rfl | rfl | rfl | rfl | rfl | rfl |
      rfl | rfl | rfl | rfl
    all_goals first
      | decide
      | exact h
      | exact fun ch hch => (intRepr_clean color ch hch).2
      | exact fun ch hch => (fmt3_clean _ ch hch).2
  | text t x y ht layer rot =>
    intro l hl
    simp only [callLines, textLines, List.mem_cons, List.not_mem_nil,
      or_false] at hl
    rcases hl with rfl | rfl | rfl | rfl | rfl | rfl | rfl | rfl | rfl | rfl |
      rfl | rfl | rfl | rfl | rfl | rfl
    all_goals first
      | decide
      | exact h.1
      | exact h.2
      | exact fun ch hch => (qRepr_clean _ ch hch).2
      | exact fun ch hch => (fmt3_clean _ ch hch).2
  | polyline pts layer color closed =>
    intro l hl
    simp only [callLines, polylineLines, List.append_assoc, List.mem_append,
      List.mem_cons, List.not_mem_nil, or_false, List.mem_flatMap] at hl
    rcases hl with (rfl | rfl | rfl | rfl | rfl | rfl | rfl | rfl | rfl |
        rfl | rfl | rfl | rfl | rfl | rfl | rfl) | ⟨p, _, hp⟩ | (rfl | rfl)
    all_goals first
      | decide
      | exact h
      | (cases closed <;> decide)
      | exact fun ch hch => (intRepr_clean color ch hch).2
      | skip
    · simp only [vertexLines, List.mem_cons, List.not_mem_nil, or_false] at hp
      rcases hp with rfl | rfl | rfl | rfl | rfl | rfl | rfl | rfl | rfl | rfl
      all_goals first
        | decide
        | exact h
        | exact fun ch hch => (fmt3_clean _ ch hch).2

/-- Each trimmed call block contributes at least one line. -/
theorem callsBlock_len (cs : List DxfCall) :
    cs.length ≤ (cs.flatMap (fun c => (callLines c).map trimStr)).length := by
  induction cs with
  | nil => simp
  | cons c cs2 ih =>
    obtain ⟨w, hw⟩ := callTrim_head c
    rw [List.flatMap_cons, List.length_append, hw]
    simp only [List.length_cons]
    omega

/-- Parse of the rendered document of a newline-free call sequence: exactly
the expected entity list. -/
theorem parseDxf_calls (cs : List DxfCall) (h : ∀ c ∈ cs, callNlFree c) :
    ∃ b2, parseDxf (applyCalls SimpleDxfWriter.new cs).toString.2 =
      some (Except.ok (ParseResult.mk (cs.map expEnt) (finalizeBounds b2))) := by
  have hcontent : (applyCalls SimpleDxfWriter.new cs).content =
      dxfHeader ++ cs.flatMap callLines := by
    rw [applyCalls_content]
    rfl
  have hstr : (applyCalls SimpleDxfWriter.new cs).toString.2 =
      String.mk (joinNl (((dxfHeader ++ cs.flatMap callLines) ++
        dxfFooter).map String.data)) := by
    rw [SimpleDxfWriter.toString, hcontent]
  have hnl : ∀ l ∈ (dxfHeader ++ cs.flatMap callLines) ++ dxfFooter,
      ∀ c ∈ l.data, c ≠ '\n' := by
    intro l hl
    rcases List.mem_append.mp hl with hl2 | hl2
    · rcases List.mem_append.mp hl2 with hl3 | hl3
      · exact header_nlFree l hl3
      · rcases List.mem_flatMap.mp hl3 with ⟨c, hc, hlc⟩
        exact callLines_nlFree c (h c hc) l hlc
    · exact footer_nlFree l hl2
  have hlines : contentLines (applyCalls SimpleDxfWriter.new cs).toString.2 =
      dxfHeader ++ (cs.flatMap (fun c => (callLines c).map trimStr) ++
        dxfFooter) := by
    rw [hstr, contentLines_render _ (by simp [dxfHeader]) hnl]
    rw [List.map_append, List.map_append, header_trim, footer_trim,
      List.map_flatMap, List.append_assoc]
  obtain ⟨b2, hb2⟩ := scan_calls cs 3 ⟨true, [], initB⟩ rfl
  refine ⟨b2, ?_⟩
  rw [parseDxf, parseLines, hlines]
  have hrun : scanMain ((3 + cs.length) + 41) initP
      (dxfHeader ++ (cs.flatMap (fun c => (callLines c).map trimStr) ++
        dxfFooter)) = some (Except.ok ⟨false, cs.map expEnt, b2⟩) := by
    rw [scan_header (3 + cs.length), hb2]
    simp only [List.nil_append]
    exact scan_footer ⟨true, cs.map expEnt, b2⟩
  have hfuel : (3 + cs.length) + 41 ≤
      (dxfHeader ++ (cs.flatMap (fun c => (callLines c).map trimStr) ++
        dxfFooter)).length + 1 := by
    have hlen := callsBlock_len cs
    simp only [List.length_append]
    have h88 : dxfHeader.length = 88 := by decide
    have h4 : dxfFooter.length = 4 := by decide
    omega
  rw [scanMain_mono _ _ _ _ _ hrun hfuel]
  rfl

/-- The expected entity of a call matches it within the 3-decimal
tolerance. -/
theorem expEnt_matches (c : DxfCall) : entMatches (expEnt c) c := by
  cases c with
  | line x1 y1 x2 y2 layer color =>
    refine ⟨rfl, round3 x1, round3 y1, round3 x2, round3 y2, rfl,
      round3_close x1, round3_close y1, round3_close x2, round3_close y2⟩
  | circle cx cy r layer color =>
    refine ⟨rfl, round3 cx, round3 cy, round3 r, rfl, rfl,
      round3_close cx, round3_close cy, round3_close r⟩
  | text t x y h layer rot =>
    refine ⟨rfl, round3 x, round3 y, rfl, rfl, round3_close x, round3_close y⟩
  | polyline pts layer color closed =>
    refine ⟨rfl, pts.map rdPt, rfl, by rw [List.length_map], ?_⟩
    intro j hj
    refine ⟨round3 pts[j]!.1, round3 pts[j]!.2, ?_, round3_close _,
      round3_close _⟩
    rw [getElem!_pos (pts.map rdPt) j (by rw [List.length_map]; exact hj),
      getElem!_pos pts j hj]
    rw [List.getElem_map]
    rfl

/-- C3 (amended): for every sequence of writer calls whose string arguments
(layer names, text content) contain no newline, parsing the rendered
document yields one entity per call, of the same type and in the same
order, with every serialized coordinate within the 3-decimal tolerance
`0.001`.  The newline proviso is needed: the counterexample shows a text
argument containing a newline injects extra records. -/
theorem roundTrip_amended (calls : List DxfCall)
    (h : ∀ c ∈ calls, callNlFree c) : RoundTripSpec calls := by
  obtain ⟨b2, hb2⟩ := parseDxf_calls calls h
  refine ⟨calls.map expEnt, finalizeBounds b2, hb2, List.length_map _ _, ?_⟩
  intro i hi
  rw [getElem!_pos (calls.map expEnt) i (by rw [List.length_map]; exact hi),
    getElem!_pos calls i hi, List.getElem_map]
  exact expEnt_matches _

/-- C3 witness: a concrete newline-free call sequence (the spec's example
LINE from `(0,0)` to `(100.5, 0)` plus a circle) satisfies the amended
round-trip property. -/
theorem roundTrip_witness :
    (∀ c ∈ [DxfCall.line 0 0 (201 / 2) 0 "CUT" 7,
        DxfCall.circle 5 5 (5 / 2) "HOLES" 2], callNlFree c) ∧
      RoundTripSpec [DxfCall.line 0 0 (201 / 2) 0 "CUT" 7,
        DxfCall.circle 5 5 (5 / 2) "HOLES" 2] := by
  have h : ∀ c ∈ [DxfCall.line 0 0 (201 / 2) 0 "CUT" 7,
      DxfCall.circle 5 5 (5 / 2) "HOLES" 2], callNlFree c := by
    intro c hc
    rcases List.mem_cons.mp hc with rfl | hc2
    · show ∀ ch ∈ ("CUT").data, ch ≠ '\n'
      decide
    rcases List.mem_cons.mp hc2 with rfl | hc3
    · show ∀ ch ∈ ("HOLES").data, ch ≠ '\n'
      decide
    · exact absurd hc3 (List.not_mem_nil c)
  exact ⟨h, roundTrip_amended _ h⟩

/-- `joinNl` on a cons with a nonempty tail. -/
theorem joinNl_cons (x : List Char) (L : List (List Char)) (h : L ≠ []) :
    joinNl (x :: L) = x ++ '\n' :: joinNl L := by
  cases L with
  | nil => exact absurd rfl h
  | cons y ys => rfl

/-- Joining is blind to whether a newline sits inside one element or
separates two: the writer's newline-containing text argument produces the
same character stream as two extra records. -/
theorem joinNl_break : ∀ (xs : List (List Char)) (a b : List Char)
    (ys : List (List Char)),
    joinNl (xs ++ (a ++ '\n' :: b) :: ys) = joinNl (xs ++ a :: b :: ys) := by
  intro xs
  induction xs with
  | nil =>
    intro a b ys
    cases ys with
    | nil => rfl
    | cons y ys2 =>
      show (a ++ '\n' :: b) ++ '\n' :: joinNl (y :: ys2) =
        a ++ '\n' :: (b ++ '\n' :: joinNl (y :: ys2))
      simp
  | cons x xs2 ih =>
    intro a b ys
    rw [List.cons_append, joinNl_cons x _ (by simp),
      List.cons_append, joinNl_cons x _ (by simp), ih]

/-- A bare LINE record immediately followed by another code-0 line pushes
the all-default LINE entity. -/
theorem scan_line_bare (f : ℕ) (s : PState) (hs : s.inEntities = true)
    (r0 : List String) :
    scanMain (f + 1) s ("0" :: "LINE" :: "0" :: r0) =
      scanMain f (pushLine s lineInit) ("0" :: r0) := by
  rw [scanMain]
  rw [jsc_0]
  rw [scanStep.eq_def]
  rw [if_neg (by decide)]
  rw [stepState, if_neg (by decide)]
  rw [scanDispatch]
  rw [if_pos ⟨hs, rfl⟩]
  rw [if_pos rfl]
  rw [parseFields_stop updLineF lineInit "0" r0 jsc_0]

/-- Parse of the rendered document of the single newline-containing TEXT
call: the embedded `"\n0\nLINE"` splits into records and a second (LINE)
entity appears. -/
theorem parseDxf_nlText : ∃ bd,
    parseDxf (applyCalls SimpleDxfWriter.new
        [DxfCall.text "A\n0\nLINE" 1 2 3 "L" 0]).toString.2 =
      some (Except.ok (ParseResult.mk
        [mkText ⟨some "L", some 7, some (round3 1), some (round3 2),
          jsParseFloat (qRepr 3), some "A"⟩ "A", mkLine lineInit] bd)) := by
  have hcontent : (applyCalls SimpleDxfWriter.new
      [DxfCall.text "A\n0\nLINE" 1 2 3 "L" 0]).content =
      dxfHeader ++ textLines "A\n0\nLINE" 1 2 3 "L" 0 := by
    rw [applyCalls_content]
    simp [callLines]
    rfl
  have hstr : (applyCalls SimpleDxfWriter.new
      [DxfCall.text "A\n0\nLINE" 1 2 3 "L" 0]).toString.2 =
      String.mk (joinNl (((dxfHeader ++ textLines "A\n0\nLINE" 1 2 3 "L" 0) ++
        dxfFooter).map String.data)) := by
    rw [SimpleDxfWriter.toString, hcontent]
  have hsplit : ((dxfHeader ++ textLines "A\n0\nLINE" 1 2 3 "L" 0) ++
      dxfFooter).map String.data =
      ((dxfHeader ++ ["0", "TEXT", "8", "L", "10", fmt3 1, "20", fmt3 2,
        "30", "0.0", "40", qRepr 3, "50", qRepr 0, "1"]).map String.data) ++
      (("A").data ++ '\n' :: (("0").data ++ '\n' :: ("LINE").data)) ::
        (dxfFooter.map String.data) := by
    simp [textLines, List.map_append]
  have hjoin : joinNl (((dxfHeader ++ textLines "A\n0\nLINE" 1 2 3 "L" 0) ++
      dxfFooter).map String.data) =
      joinNl (((dxfHeader ++ ["0", "TEXT", "8", "L", "10", fmt3 1, "20",
        fmt3 2, "30", "0.0", "40", qRepr 3, "50", qRepr 0, "1", "A", "0",
        "LINE"]) ++ dxfFooter).map String.data) := by
    rw [hsplit]
    rw [joinNl_break]
    rw [show ((dxfHeader ++ ["0", "TEXT", "8", "L", "10", fmt3 1, "20", fmt3 2,
        "30", "0.0", "40", qRepr 3, "50", qRepr 0, "1"]).map String.data) ++
        ("A").data :: (("0").data ++ '\n' :: ("LINE").data) ::
          (dxfFooter.map String.data) =
      (((dxfHeader ++ ["0", "TEXT", "8", "L", "10", fmt3 1, "20", fmt3 2,
        "30", "0.0", "40", qRepr 3, "50", qRepr 0, "1"]).map String.data) ++
        [("A").data]) ++ (("0").data ++ '\n' :: ("LINE").data) ::
          (dxfFooter.map String.data) from by simp]
    rw [joinNl_break]
    simp [List.map_append]
  have hnl2 : ∀ l ∈ (dxfHeader ++ ["0", "TEXT", "8", "L", "10", fmt3 1,
      "20", fmt3 2, "30", "0.0", "40", qRepr 3, "50", qRepr 0, "1", "A",
      "0", "LINE"]) ++ dxfFooter, ∀ c ∈ l.data, c ≠ '\n' := by
    intro l hl
    rcases List.mem_append.mp hl with hl2 | hl2
    · rcases List.mem_append.mp hl2 with hl3 | hl3
      · exact header_nlFree l hl3
      · simp only [List.mem_cons, List.not_mem_nil, or_false] at hl3
        rcases hl3 with rfl | rfl | rfl | rfl | rfl | rfl | rfl | rfl | rfl |
          rfl | rfl | rfl | rfl | rfl | rfl | rfl | rfl | rfl
        all_goals first
          | decide
          | exact fun ch hch => (fmt3_clean _ ch hch).2
          | exact fun ch hch => (qRepr_clean _ ch hch).2
    · exact footer_nlFree l hl2
  have hlines : contentLines (applyCalls SimpleDxfWriter.new
      [DxfCall.text "A\n0\nLINE" 1 2 3 "L" 0]).toString.2 =
      dxfHeader ++ ("0" :: "TEXT" :: "8" :: "L" :: "10" :: fmt3 1 ::
        "20" :: fmt3 2 :: "30" :: "0.0" :: "40" :: qRepr 3 ::
        "50" :: qRepr 0 :: "1" :: "A" :: "0" :: "LINE" :: dxfFooter) := by
    rw [hstr]
    rw [show (String.mk (joinNl (((dxfHeader ++
        textLines "A\n0\nLINE" 1 2 3 "L" 0) ++ dxfFooter).map String.data)))
      = (String.mk (joinNl (((dxfHeader ++ ["0", "TEXT", "8", "L", "10",
        fmt3 1, "20", fmt3 2, "30", "0.0", "40", qRepr 3, "50", qRepr 0,
        "1", "A", "0", "LINE"]) ++ dxfFooter).map String.data))) from by
      rw [hjoin]]
    rw [contentLines_render _ (by simp [dxfHeader]) hnl2]
    rw [List.map_append, List.map_append, header_trim, footer_trim]
    simp only [List.map_cons, List.map_nil, trimStr_fmt3, trimStr_qRepr]
    rw [show trimStr "0" = "0" from by decide,
      show trimStr "TEXT" = "TEXT" from by decide,
      show trimStr "8" = "8" from by decide,
      show trimStr "L" = "L" from by decide,
      show trimStr "10" = "10" from by decide,
      show trimStr "20" = "20" from by decide,
      show trimStr "30" = "30" from by decide,
      show trimStr "0.0" = "0.0" from by decide,
      show trimStr "40" = "40" from by decide,
      show trimStr "50" = "50" from by decide,
      show trimStr "1" = "1" from by decide,
      show trimStr "A" = "A" from by decide,
      show trimStr "LINE" = "LINE" from by decide]
    simp
  refine ⟨finalizeBounds (pushLine (pushTextE ⟨true, [], initB⟩
    ⟨some "L", some 7, some (round3 1), some (round3 2),
      jsParseFloat (qRepr 3), some "A"⟩ "A") lineInit).b, ?_⟩
  rw [parseDxf, parseLines, hlines]
  have hrun : scanMain (((3 + 1) + 1) + 41) initP
      (dxfHeader ++ ("0" :: "TEXT" :: "8" :: "L" :: "10" :: fmt3 1 ::
        "20" :: fmt3 2 :: "30" :: "0.0" :: "40" :: qRepr 3 ::
        "50" :: qRepr 0 :: "1" :: "A" :: "0" :: "LINE" :: dxfFooter)) =
      some (Except.ok ⟨false,
        (pushLine (pushTextE ⟨true, [], initB⟩
          ⟨some "L", some 7, some (round3 1), some (round3 2),
            jsParseFloat (qRepr 3), some "A"⟩ "A") lineInit).entities,
        (pushLine (pushTextE ⟨true, [], initB⟩
          ⟨some "L", some 7, some (round3 1), some (round3 2),
            jsParseFloat (qRepr 3), some "A"⟩ "A") lineInit).b⟩) := by
    rw [scan_header ((3 + 1) + 1)]
    rw [show ("0" :: "TEXT" :: "8" :: "L" :: "10" :: fmt3 1 ::
        "20" :: fmt3 2 :: "30" :: "0.0" :: "40" :: qRepr 3 ::
        "50" :: qRepr 0 :: "1" :: "A" :: "0" :: "LINE" :: dxfFooter)
      = ("0" :: "TEXT" :: "8" :: "L" :: "10" :: fmt3 1 ::
        "20" :: fmt3 2 :: "30" :: "0.0" :: "40" :: qRepr 3 ::
        "50" :: qRepr 0 :: "1" :: "A" :: "0" :: ("LINE" :: dxfFooter))
      from rfl]
    rw [scan_text (3 + 1) ⟨true, [], initB⟩ rfl 1 2 3 0 "L" "A"
      ("LINE" :: dxfFooter)]
    rw [show ("0" :: "LINE" :: dxfFooter)
      = ("0" :: "LINE" :: "0" :: ("ENDSEC" :: "0" :: "EOF" :: [])) from rfl]
    rw [scan_line_bare 3 _ rfl ("ENDSEC" :: "0" :: "EOF" :: [])]
    exact scan_footer _
  have hfuel : ((3 + 1) + 1) + 41 ≤
      (dxfHeader ++ ("0" :: "TEXT" :: "8" :: "L" :: "10" :: fmt3 1 ::
        "20" :: fmt3 2 :: "30" :: "0.0" :: "40" :: qRepr 3 ::
        "50" :: qRepr 0 :: "1" :: "A" :: "0" :: "LINE" :: dxfFooter)).length
        + 1 := by
    simp only [List.length_append, List.length_cons]
    have h88 : dxfHeader.length = 88 := by decide
    have h4 : dxfFooter.length = 4 := by decide
    omega
  rw [scanMain_mono _ _ _ _ _ hrun hfuel]
  rfl

/-- C3 counterexample: the single `addText` call whose text argument
contains `"\n0\nLINE"` renders to a document that parses to two entities,
so the original universally quantified round-trip claim (count preserved
for every call sequence) is false. -/
theorem roundTrip_cex :
    Option.map (Except.map (fun r => r.entities.length))
      (parseDxf (applyCalls SimpleDxfWriter.new
        [DxfCall.text "A\n0\nLINE" 1 2 3 "L" 0]).toString.2) =
      some (Except.ok 2) ∧
    ¬ RoundTripSpec [DxfCall.text "A\n0\nLINE" 1 2 3 "L" 0] := by
  obtain ⟨bd, hp⟩ := parseDxf_nlText
  constructor
  · rw [hp]
    rfl
  · rintro ⟨ents, bounds, hpe, hlen, _⟩
    rw [hp] at hpe
    simp only [Option.some.injEq, Except.ok.injEq, ParseResult.mk.injEq] at hpe
    rw [← hpe.1] at hlen
    simp at hlen
